import Mathlib

/-!
Shallow embedding of the boarding-combat core of this repository
(`source/Boarding.{h,cpp}`, `source/BoardingCombat.{h,cpp}`,
`source/CaptureOdds.{h,cpp}`, `source/BoardingProbability.cpp`,
`source/Plunder.{h,cpp}`), together with theorems settling the frozen
claims about it.

Modelling conventions:
* C++ `double` values are modelled as `ℚ` (exact arithmetic); note that in
  Lean division by zero yields `0`.
* C++ `int` values are modelled as `ℤ`; `static_cast<unsigned>(x)` is
  modelled as `x mod 2 ^ 32`.
* `std::map<K, V>` literals are modelled as functions `K → Option V`;
  `map.at(k)` is modelled as a lookup that produces an
  `Except BoardingErr V`, where a missing key gives the
  `std::out_of_range` error.
* `Random::Real()` draws are passed in explicitly (as `ℚ` arguments or an
  `ℕ → ℚ` stream), so every function is deterministic in its inputs.
* external collaborator classes (`Ship`, `Government`, `CargoHold`,
  `Gamerules`) are not part of the repository sources; the few facts the
  combat core reads from them are modelled as structure fields or
  function parameters, with `Modelled from the spec:` comments where the
  spec is the only available description.
-/

namespace EndlessSky

/-- Errors thrown by the modelled C++ code: `std::out_of_range` (from
`std::map::at` / `std::vector::at`) and `std::invalid_argument`. -/
inductive BoardingErr where
  | outOfRange
  | invalidArgument
deriving DecidableEq, Repr

/-- Lookup in a `std::map` modelled as `K → Option V`: `map.at(k)` throws
`std::out_of_range` when the key is missing. -/
def mapAt {V : Type} (m : Option V) : Except BoardingErr V :=
  match m with
  | some v => .ok v
  | none => .error .outOfRange

/-- The `Boarding::State` enum from `source/Boarding.h`. -/
inductive State where
  | Isolated
  | Poised
  | Withdrawing
  | BoarderInvading
  | TargetInvading
  | BoarderVictory
  | TargetVictory
  | Ended
deriving DecidableEq, Repr, Fintype

/-- The `Boarding::Negotiation` enum from `source/Boarding.h`. -/
inductive Negotiation where
  | NotAttempted
  | BoarderRejected
  | TargetRejected
  | Active
  | Successful
  | Failed
deriving DecidableEq, Repr, Fintype

/-- The `Boarding::AttackStrategy` enum from `source/Boarding.h`. -/
inductive AttackStrategy where
  | Cautious
  | Aggressive
  | Reckless
  | Fanatical
deriving DecidableEq, Repr, Fintype

/-- The `Boarding::DefenseStrategy` enum from `source/Boarding.h`. -/
inductive DefenseStrategy where
  | Repel
  | Counter
  | Deny
deriving DecidableEq, Repr, Fintype

/-- The `Boarding::Action::Objective` enum from `source/Boarding.h`. -/
inductive Objective where
  | Null
  | Pending
  | Attack
  | Defend
  | Negotiate
  | Plunder
  | Reject
  | Resolve
  | SelfDestruct
  | Capture
  | Destroy
  | Leave
deriving DecidableEq, Repr, Fintype

/-- The `Boarding::Action::Details` variant from `source/Boarding.h`:
either a boolean placeholder, a `(index, quantity)` integer pair, or an
Offer. The contents of an `Offer` are never inspected by any function we
reason about, so the payload of that alternative is elided. -/
inductive Details where
  | boolD (b : Bool)
  | pairD (fst snd : ℤ)
  | offerD
deriving DecidableEq, Repr

/-- The `Boarding::Action::Activity` struct: an objective plus details. -/
structure Activity where
  objective : Objective
  details : Details
deriving DecidableEq, Repr

/-- The `Activity(Objective::Null, false)` value used throughout the code. -/
def nullActivity : Activity := ⟨.Null, .boolD false⟩

/-- The `Boarding::Action::Effect` struct. -/
structure Effect where
  state : State
  negotiation : Negotiation
  casualtyObjective : Objective
  casualtyRolls : ℤ
deriving DecidableEq, Repr

/-- The `Boarding::Action::Result` struct. -/
structure AResult where
  state : State
  negotiation : Negotiation
  casualties : ℤ
  enemyCasualties : ℤ
deriving DecidableEq, Repr

/-- The resolved part of a `Boarding::Action`: its intended activity, its
actual activity and its effect (set by `AttemptAction`). The `result`
member is kept separate (see `applyPhase`) because the constructors of
`Action` leave it uninitialized. -/
structure ActionB where
  intent : Activity
  actual : Activity
  effect : Effect
deriving DecidableEq, Repr

/-- The map `Boarding::casualtiesPreventedByState` from
`source/Boarding.cpp`; it has an entry for every `State`, so it is
modelled as a total function. -/
def casualtiesPreventedByState : State → Bool
  | .Isolated => true
  | .Poised => false
  | .Withdrawing => true
  | .BoarderInvading => false
  | .TargetInvading => false
  | .BoarderVictory => true
  | .TargetVictory => true
  | .Ended => true

/-- The map `Boarding::casualtiesPreventedByNegotiation` from
`source/Boarding.cpp`; it has an entry for every `Negotiation`, so it is
modelled as a total function. -/
def casualtiesPreventedByNegotiation : Negotiation → Bool
  | .NotAttempted => false
  | .BoarderRejected => false
  | .TargetRejected => false
  | .Active => true
  | .Successful => false
  | .Failed => false

/-- The map `Boarding::Action::casualtiesPreventedByObjective` from
`source/Boarding.cpp`. `Pending` is deliberately omitted from the map in
the source, so the lookup yields `none` for it. -/
def casualtiesPreventedByObjective : Objective → Option Bool
  | .Null => some true
  | .Pending => none
  | .Attack => some false
  | .Defend => some false
  | .Plunder => some true
  | .SelfDestruct => some false
  | .Negotiate => some true
  | .Reject => some true
  | .Resolve => some true
  | .Capture => some true
  | .Leave => some true
  | .Destroy => some false

/-- The map `Boarding::Action::isObjectiveDefensive` from
`source/Boarding.cpp`. `Null` and `Pending` are deliberately omitted from
the map in the source, so the lookup yields `none` for them. -/
def isObjectiveDefensive : Objective → Option Bool
  | .Null => none
  | .Pending => none
  | .Attack => some false
  | .Defend => some true
  | .Plunder => some false
  | .SelfDestruct => some true
  | .Negotiate => some true
  | .Reject => some false
  | .Resolve => some true
  | .Capture => some false
  | .Leave => some true
  | .Destroy => some false

/-- The function `Boarding::Action::ValidObjectives` from
`source/Boarding.cpp`. Both branches build a map containing exactly the
ten objectives `Attack .. Destroy`; `Null` and `Pending` never appear as
keys, so looking them up yields `none`. -/
def validObjectives (state : State) (negotiation : Negotiation) (isBoarder : Bool) :
    Objective → Option Bool :=
  if negotiation = .Active then
    fun o =>
      match o with
      | .Attack => some false
      | .Defend => some false
      | .Plunder => some false
      | .SelfDestruct => some false
      | .Negotiate => some true
      | .Reject => some true
      | .Resolve => some true
      | .Capture => some false
      | .Leave => some false
      | .Destroy => some false
      | _ => none
  else
    let canAttack := (state = .Isolated ∧ isBoarder)
      ∨ state = .BoarderInvading
      ∨ state = .Poised
      ∨ state = .TargetInvading
    let canDefend := (state = .Isolated ∧ ¬isBoarder)
      ∨ state = .BoarderInvading
      ∨ state = .Poised
      ∨ state = .TargetInvading
    let canSelfDestruct := (state = .Isolated ∧ ¬isBoarder)
      ∨ (state = .BoarderInvading ∧ ¬isBoarder)
      ∨ state = .Poised
      ∨ (state = .TargetInvading ∧ isBoarder)
    let canPlunder := (state = .Isolated ∧ isBoarder)
      ∨ (state = .BoarderVictory ∧ isBoarder)
      ∨ (state = .TargetVictory ∧ ¬isBoarder)
    let stateAllowsNegotiation := state = .Isolated
      ∨ state = .Poised
      ∨ state = .Withdrawing
      ∨ state = .BoarderInvading
      ∨ state = .TargetInvading
    let canNegotiate := stateAllowsNegotiation ∧ (
      negotiation = .NotAttempted
      ∨ (negotiation = .BoarderRejected ∧ isBoarder)
      ∨ (negotiation = .TargetRejected ∧ ¬isBoarder))
    let canResolve := False
    let canReject := False
    let canCapture := (state = .BoarderVictory ∧ isBoarder)
      ∨ (state = .TargetVictory ∧ ¬isBoarder)
    let canLeave := (state = .Isolated ∧ isBoarder)
      ∨ (state = .BoarderVictory ∧ isBoarder)
      ∨ (state = .TargetVictory ∧ ¬isBoarder)
    let canDestroy := (state = .Isolated ∧ isBoarder)
      ∨ (state = .BoarderVictory ∧ isBoarder)
      ∨ (state = .TargetVictory ∧ ¬isBoarder)
    fun o =>
      match o with
      | .Attack => some (decide canAttack)
      | .Defend => some (decide canDefend)
      | .Plunder => some (decide canPlunder)
      | .SelfDestruct => some (decide canSelfDestruct)
      | .Negotiate => some (decide canNegotiate)
      | .Reject => some (decide canReject)
      | .Resolve => some (decide canResolve)
      | .Capture => some (decide canCapture)
      | .Leave => some (decide canLeave)
      | .Destroy => some (decide canDestroy)
      | _ => none

/-- The overloads `Boarding::Action::IsValidDetails` from
`source/Boarding.cpp`, combined into one dispatch on the variant. -/
def isValidDetails (objective : Objective) (details : Details) : Bool :=
  match details with
  | .boolD b =>
    match objective with
    | .Plunder => false
    | .Negotiate => false
    | .Resolve => false
    | _ => !b
  | .pairD _ _ =>
    match objective with
    | .Plunder => true
    | _ => false
  | .offerD =>
    match objective with
    | .Negotiate => true
    | .Resolve => true
    | _ => false

/-- The function `Boarding::IsValidActivity` from `source/Boarding.cpp`.
`validObjectives->at(objective)` throws `std::out_of_range` when the
objective is not a key of the map, regardless of `shouldThrow`;
`shouldThrow` upgrades the `false` answers to `std::invalid_argument`
exceptions. -/
def isValidActivity (activity : Activity) (vo : Objective → Option Bool)
    (shouldThrow : Bool) : Except BoardingErr Bool := do
  let allowed ← mapAt (vo activity.objective)
  if !allowed then
    if !shouldThrow then return false
    else throw .invalidArgument
  else if !(isValidDetails activity.objective activity.details) then
    if !shouldThrow then return false
    else throw .invalidArgument
  else
    return true

/-- The function `BoardingCombat::Combatant::MaybeChangeState` from
`source/BoardingCombat.cpp` (lines 904-952). `isBoarder` is the acting
combatant's side. -/
def maybeChangeState (isBoarder : Bool) (state : State) (actual : Activity)
    (enemyIntent : Activity) : State :=
  if actual.objective = .Attack then
    let enemyAttacking := enemyIntent.objective = .Attack
    let isInvading := if isBoarder then state = .BoarderInvading else state = .TargetInvading
    let enemyInvading := if isBoarder then state = .TargetInvading else state = .BoarderInvading
    if isInvading then state
    else if enemyInvading then
      if enemyAttacking then state else .Poised
    else if state = .Isolated ∧ isBoarder then .Poised
    else if state = .Poised ∨ state = .Withdrawing then
      if enemyAttacking then .Poised
      else if isBoarder then .BoarderInvading else .TargetInvading
    else state
  else if actual.objective = .SelfDestruct then .Ended
  else if actual.objective = .Capture then .Ended
  else if actual.objective = .Destroy then .Ended
  else if actual.objective = .Leave then .Ended
  else state

/-- The function `BoardingCombat::Combatant::MaybeChangeNegotiation` from
`source/BoardingCombat.cpp` (lines 967-981). -/
def maybeChangeNegotiation (isBoarder : Bool) (negotiation : Negotiation)
    (actual : Activity) : Negotiation :=
  if actual.objective = .Negotiate then .Active
  else if actual.objective = .Reject then
    if isBoarder then .BoarderRejected else .TargetRejected
  else negotiation

/-! ## CaptureOdds (`source/CaptureOdds.cpp`)

The three lookup tables built by `CaptureOdds::Calculate` are stored in
flat vectors, one conceptual row per attacker crew count (the first row,
for one attacker, is all zeroes from the initial `resize`).  The source
builds all three vectors in one loop; here each vector is built by its
own recursion with exactly the source's per-cell formulas. -/

/-- Cast `static_cast<unsigned>(x)` of a C++ `int`, as a mathematical
integer in `[0, 2^32)`. -/
def castU32 (x : ℤ) : ℤ := x % 4294967296

/-- Inner loop of `CaptureOdds::Calculate` for `captureChance`
(`source/CaptureOdds.cpp` lines 144-158): each new cell blends the
previous cell of the current row (`last`, one fewer defender) with the
cell of the previous row (`pv`, one fewer attacker). -/
def ccRowAux (ap : ℚ) : List ℚ → List ℚ → ℚ → List ℚ
  | [], _, _ => []
  | _ :: _, [], _ => []
  | pd :: pds, pv :: pvs, last =>
    let chance := ap / (ap + pd)
    let v := chance * last + (1 - chance) * pv
    v :: ccRowAux ap pds pvs v

/-- One row of `captureChance` for a fixed attacker power `ap`, from the
previous row `prev`.  The first cell is the source's special case for a
single remaining defender (lines 130-141): `chance + (1 - chance) * prev[0]`. -/
def ccRow (ap : ℚ) (pd prev : List ℚ) : List ℚ :=
  match pd, prev with
  | pd0 :: pds, pv0 :: pvs =>
    let chance := ap / (ap + pd0)
    let v := chance + (1 - chance) * pv0
    v :: ccRowAux ap pds pvs v
  | _, _ => []

/-- Rows of `captureChance` for the attacker powers `aps`
(`powerAttacker[1]`, `powerAttacker[2]`, ...), threading each finished
row into the next. -/
def ccRows (pd : List ℚ) (prev : List ℚ) : List ℚ → List (List ℚ)
  | [] => []
  | ap :: aps =>
    let r := ccRow ap pd prev
    r :: ccRows pd r aps

/-- The `captureChance` vector built by `CaptureOdds::Calculate` from the
power vectors `pa = powerAttacker` and `pd = powerDefender`.  If either
power vector is empty the function returns early and the table stays
empty; otherwise the first row (attacker crew 1) is all zeroes. -/
def captureChance (pa pd : List ℚ) : List ℚ :=
  if pa.isEmpty ∨ pd.isEmpty then []
  else List.replicate pd.length 0
    ++ (ccRows pd (List.replicate pd.length 0) pa.tail).flatten

/-- Inner loop cells of `casualtiesAttacker`:
`chance * last + (1 - chance) * (pv + 1)`. -/
def caRowAux (ap : ℚ) : List ℚ → List ℚ → ℚ → List ℚ
  | [], _, _ => []
  | _ :: _, [], _ => []
  | pd :: pds, pv :: pvs, last =>
    let chance := ap / (ap + pd)
    let v := chance * last + (1 - chance) * (pv + 1)
    v :: caRowAux ap pds pvs v

/-- One row of `casualtiesAttacker`; the first cell is
`(1 - chance) * (prev[0] + 1)` (line 138). -/
def caRow (ap : ℚ) (pd prev : List ℚ) : List ℚ :=
  match pd, prev with
  | pd0 :: pds, pv0 :: pvs =>
    let chance := ap / (ap + pd0)
    let v := (1 - chance) * (pv0 + 1)
    v :: caRowAux ap pds pvs v
  | _, _ => []

/-- Rows of `casualtiesAttacker`. -/
def caRows (pd : List ℚ) (prev : List ℚ) : List ℚ → List (List ℚ)
  | [] => []
  | ap :: aps =>
    let r := caRow ap pd prev
    r :: caRows pd r aps

/-- The `casualtiesAttacker` vector built by `CaptureOdds::Calculate`. -/
def casualtiesAttacker (pa pd : List ℚ) : List ℚ :=
  if pa.isEmpty ∨ pd.isEmpty then []
  else List.replicate pd.length 0
    ++ (caRows pd (List.replicate pd.length 0) pa.tail).flatten

/-- Inner loop cells of `casualtiesDefender`:
`chance * (last + 1) + (1 - chance) * pv`. -/
def cdRowAux (ap : ℚ) : List ℚ → List ℚ → ℚ → List ℚ
  | [], _, _ => []
  | _ :: _, [], _ => []
  | pd :: pds, pv :: pvs, last =>
    let chance := ap / (ap + pd)
    let v := chance * (last + 1) + (1 - chance) * pv
    v :: cdRowAux ap pds pvs v

/-- One row of `casualtiesDefender`; the first cell is
`chance + (1 - chance) * prev[0]` (line 140). -/
def cdRow (ap : ℚ) (pd prev : List ℚ) : List ℚ :=
  match pd, prev with
  | pd0 :: pds, pv0 :: pvs =>
    let chance := ap / (ap + pd0)
    let v := chance + (1 - chance) * pv0
    v :: cdRowAux ap pds pvs v
  | _, _ => []

/-- Rows of `casualtiesDefender`. -/
def cdRows (pd : List ℚ) (prev : List ℚ) : List ℚ → List (List ℚ)
  | [] => []
  | ap :: aps =>
    let r := cdRow ap pd prev
    r :: cdRows pd r aps

/-- The `casualtiesDefender` vector built by `CaptureOdds::Calculate`. -/
def casualtiesDefender (pa pd : List ℚ) : List ℚ :=
  if pa.isEmpty ∨ pd.isEmpty then []
  else List.replicate pd.length 0
    ++ (cdRows pd (List.replicate pd.length 0) pa.tail).flatten

/-- The function `CaptureOdds::Index` (`source/CaptureOdds.cpp` lines
179-187).  Note the source compares the unsigned casts with `>` (not
`>=`) against the power-vector sizes. -/
def capIndex (pa pd : List ℚ) (attackingCrew defendingCrew : ℤ) : ℤ :=
  if castU32 (attackingCrew - 1) > (pa.length : ℤ) then -1
  else if castU32 (defendingCrew - 1) > (pd.length : ℤ) then -1
  else (attackingCrew - 1) * pd.length + (defendingCrew - 1)

/-- The function `CaptureOdds::Odds` (lines 41-55).  The out-of-bounds
vector access `captureChance[index]` (undefined behaviour in C++ when
`index` is at or past the end) is modelled with a default of `0`; the
theorems below never rely on that default value. -/
def odds (pa pd : List ℚ) (attackingCrew defendingCrew : ℤ) : ℚ :=
  if defendingCrew = 0 then 1
  else
    let index := capIndex pa pd attackingCrew defendingCrew
    if attackingCrew < 2 ∨ index < 0 then 0
    else (captureChance pa pd).getD index.toNat 0

/-- The function `CaptureOdds::AttackerCasualties` (lines 61-70). -/
def attackerCasualties (pa pd : List ℚ) (attackingCrew defendingCrew : ℤ) : ℚ :=
  let index := capIndex pa pd attackingCrew defendingCrew
  if attackingCrew < 2 ∨ defendingCrew = 0 ∨ index < 0 then 0
  else (casualtiesAttacker pa pd).getD index.toNat 0

/-- The function `CaptureOdds::DefenderCasualties` (lines 76-85). -/
def defenderCasualties (pa pd : List ℚ) (attackingCrew defendingCrew : ℤ) : ℚ :=
  let index := capIndex pa pd attackingCrew defendingCrew
  if attackingCrew < 2 ∨ defendingCrew = 0 ∨ index < 0 then 0
  else (casualtiesDefender pa pd).getD index.toNat 0

/-- The function `CaptureOdds::AttackerPower` (lines 91-97); unlike
`Index`, it guards with `>=`. -/
def capAttackerPower (pa : List ℚ) (attackingCrew : ℤ) : ℚ :=
  if castU32 (attackingCrew - 1) ≥ (pa.length : ℤ) then 0
  else pa.getD (attackingCrew - 1).toNat 0

/-- The function `CaptureOdds::DefenderPower` (lines 103-109). -/
def capDefenderPower (pd : List ℚ) (defendingCrew : ℤ) : ℚ :=
  if castU32 (defendingCrew - 1) ≥ (pd.length : ℤ) then 0
  else pd.getD (defendingCrew - 1).toNat 0

/-- An outfit, as consumed by the odds engines: its "boarding attack" and
"boarding defense" attribute values. -/
structure Outfit where
  boardingAttack : ℚ
  boardingDefense : ℚ
deriving DecidableEq, Repr

/-- The facts the odds engines read from a ship and its government.
`Ship` and `Government` are external collaborators (not part of these
sources); the fields mirror exactly the getters the combat core calls. -/
structure ShipM where
  crew : ℤ
  automatedDefenders : ℤ
  automatedInvaders : ℤ
  crewAttack : ℚ
  crewDefense : ℚ
  outfits : List (Outfit × ℤ)
deriving Repr

/-- Descending insertion of one element (used to model
`std::sort(power.begin(), power.end(), greater<double>())`). -/
def insertDesc (x : ℚ) : List ℚ → List ℚ
  | [] => [x]
  | y :: ys => if x ≥ y then x :: y :: ys else y :: insertDesc x ys

/-- Descending sort, modelling `std::sort` with `greater<double>`. -/
def sortDesc : List ℚ → List ℚ
  | [] => []
  | x :: xs => insertDesc x (sortDesc xs)

/-- Partial-sum pass of `CaptureOdds::Power` (lines 226-228): each entry
additionally absorbs one `crewPower`, so entry `i` is the total power
with `i + 1` members remaining. -/
def cumPower (crewPower : ℚ) : ℚ → List ℚ → List ℚ
  | _, [] => []
  | prev, x :: xs =>
    let v := prev + x + crewPower
    v :: cumPower crewPower v xs

/-- The function `CaptureOdds::Power` (`source/CaptureOdds.cpp` lines
193-231): collect positive outfit bonuses, sort them descending, resize
to the effective crew count (padding with zero), then cumulative-sum with
the base crew power.  Note there is no minimum floor applied anywhere in
this function. -/
def capturePower (ship : ShipM) (isDefender : Bool) : List ℚ :=
  let effectiveCrewMembers : ℤ :=
    if isDefender then ship.crew + ship.automatedDefenders
    else ship.crew + ship.automatedInvaders
  if effectiveCrewMembers = 0 then []
  else
    let crewPower := if isDefender then ship.crewDefense else ship.crewAttack
    let collected := ship.outfits.foldl
      (fun acc oc =>
        let value := if isDefender then oc.1.boardingDefense else oc.1.boardingAttack
        if value > 0 ∧ oc.2 > 0 then acc ++ List.replicate oc.2.toNat value else acc)
      []
    let sorted := sortDesc collected
    let resized := sorted.take effectiveCrewMembers.toNat
      ++ List.replicate (effectiveCrewMembers.toNat - sorted.length) 0
    match resized with
    | [] => []
    | x :: xs =>
      let first := x + crewPower
      first :: cumPower crewPower first xs


/-! ## Combatant (`source/BoardingCombat.cpp`) -/

/-- Reduction of `Except` bind on a success value (helper). -/
theorem exceptBind_ok {e a b : Type} (x : a) (f : a → Except e b) :
    (Except.ok x : Except e a) >>= f = f x := rfl

/-- Reduction of `Except` bind on an error value (helper). -/
theorem exceptBind_err {e a b : Type} (err : e) (f : a → Except e b) :
    (Except.error err : Except e a) >>= f = Except.error err := rfl

/-- Reduction of `pure` for `Except` (helper). -/
theorem exceptPure_def {e a : Type} (x : a) :
    (pure x : Except e a) = Except.ok x := rfl

/-- The turn-stable facts that `Combatant::AttemptAction` and
`Combatant::CasualtyRolls` read from a combatant: its side, its current
attack/defense power (the source looks these up in the odds tables at the
current crew counts; they are turn-stable values here), the ship's
`"self destruct"` attribute, and the current invader/defender counts. -/
structure CombatantCtx where
  isBoarder : Bool
  attackPower : ℚ
  defensePower : ℚ
  selfDestructAttr : ℚ
  invaders : ℤ
  defenders : ℤ
deriving Repr

/-- The function `BoardingCombat::Combatant::ActionPower` (lines
1342-1348): defensive objectives use defense power, the rest attack
power; the `isObjectiveDefensive.at` lookup throws for `Null`/`Pending`. -/
def actionPower (c : CombatantCtx) (objective : Objective) : Except BoardingErr ℚ := do
  let defensive ← mapAt (isObjectiveDefensive objective)
  if defensive then return c.defensePower else return c.attackPower

/-- C++ `static_cast<int>` of a `double`: truncation toward zero. -/
def cppTrunc (q : ℚ) : ℤ := q.num.tdiv (q.den : ℤ)

/-- The function `BoardingCombat::Combatant::CasualtyRolls` (lines
500-520).  `casualtyPct` is the gamerules value
`BoardingCasualtyPercentagePerAction` (a `Gamerules` collaborator
value).  The three map lookups short-circuit exactly as the `||` chain in
the source does. -/
def casualtyRolls (casualtyPct : ℚ) (c : CombatantCtx) (state : State)
    (negotiation : Negotiation) (objective : Objective) : Except BoardingErr ℤ := do
  if casualtiesPreventedByState state then return 0
  else if casualtiesPreventedByNegotiation negotiation then return 0
  else
    let prevented ← mapAt (casualtiesPreventedByObjective objective)
    if prevented then return 0
    else
      let defensive ← mapAt (isObjectiveDefensive objective)
      return max 1 (cppTrunc (casualtyPct * ((if defensive then c.defenders else c.invaders : ℤ) : ℚ)))

/-- The function `BoardingCombat::Combatant::AttemptAction` (lines
1415-1473).  `r1` models the `Random::Real()` draw of the power roll and
`r2` the second draw used only for `SelfDestruct`; `langShared` is
`combat.IsLanguageShared()`. -/
def attemptAction (langShared : Bool) (casualtyPct : ℚ) (c : CombatantCtx) (state : State)
    (negotiation : Negotiation) (intent enemyIntent : Activity) (enemyPower : ℚ)
    (r1 r2 : ℚ) : Except BoardingErr ActionB := do
  let valid ← isValidActivity intent (validObjectives state negotiation c.isBoarder) false
  if !valid then
    return ⟨intent, nullActivity, ⟨state, negotiation, intent.objective, 0⟩⟩
  else
    let power ← actionPower c intent.objective
    let totalPower := power + enemyPower
    let wonPowerRoll : Bool := decide (r1 * totalPower ≤ power)
    let canPerformIntent : Bool :=
      if intent.objective = .Defend then decide (enemyIntent.objective = .Attack)
      else if intent.objective = .Negotiate then langShared
      else if intent.objective = .Resolve then decide (enemyIntent.objective ≠ .Reject)
      else if intent.objective = .SelfDestruct then
        wonPowerRoll && decide (r2 < c.selfDestructAttr)
      else true
    let actual := if canPerformIntent then intent else nullActivity
    let rolls ← casualtyRolls casualtyPct c state negotiation actual.objective
    return ⟨intent, actual,
      ⟨maybeChangeState c.isBoarder state actual enemyIntent,
        maybeChangeNegotiation c.isBoarder negotiation actual,
        actual.objective, rolls⟩⟩

/-! ## Theorems for claims C1, C4, C5 -/

/-- C1 counterexample: the claim asserts that `BoarderVictory` is
terminal, but from `BoarderVictory` the boarder is still offered the
`Capture` objective, and a successful `Capture` transitions the state to
`Ended` — a further state transition out of a supposedly terminal
state. -/
theorem victory_state_admits_transition :
    validObjectives .BoarderVictory .NotAttempted true .Capture = some true
    ∧ maybeChangeState true .BoarderVictory ⟨.Capture, .boolD false⟩ nullActivity = .Ended
    ∧ State.Ended ≠ State.BoarderVictory := by
  refine ⟨by decide, by decide, by decide⟩

/-- C1 (amended): `Ended` is terminal — outside an active negotiation no
objective is valid in `Ended`, and no actual activity moves the state
away from `Ended` — but the victory states are not terminal: the victor
is still offered `Capture`, whose success transitions the state to
`Ended`. -/
theorem ended_is_terminal_but_victory_is_not :
    (∀ neg : Negotiation, neg ≠ .Active →
      ∀ (o : Objective) (b : Bool), validObjectives .Ended neg b o ≠ some true)
    ∧ (∀ (b : Bool) (actual enemyIntent : Activity),
        maybeChangeState b .Ended actual enemyIntent = .Ended)
    ∧ validObjectives .BoarderVictory .NotAttempted true .Capture = some true
    ∧ maybeChangeState true .BoarderVictory ⟨.Capture, .boolD false⟩ nullActivity = .Ended := by
  refine ⟨?_, ?_, by decide, by decide⟩
  · intro neg h o b
    cases neg with
    | NotAttempted => revert o b; decide
    | BoarderRejected => revert o b; decide
    | TargetRejected => revert o b; decide
    | Active => exact absurd rfl h
    | Successful => revert o b; decide
    | Failed => revert o b; decide
  · intro b actual enemyIntent
    rcases actual with ⟨o, dt⟩
    cases o <;> cases b <;> simp [maybeChangeState]

/-- C1 witness: the amended theorem applied at `NotAttempted` negotiation,
the `Attack` objective and a concrete activity. -/
theorem ended_is_terminal_but_victory_is_not_witness :
    validObjectives .Ended .NotAttempted true .Attack ≠ some true
    ∧ maybeChangeState false .Ended ⟨.Attack, .boolD false⟩ nullActivity = .Ended :=
  ⟨ended_is_terminal_but_victory_is_not.1 .NotAttempted (by decide) .Attack true,
    ended_is_terminal_but_victory_is_not.2.1 false ⟨.Attack, .boolD false⟩ nullActivity⟩

/-- C4 counterexample: the claim demands `Odds(a, d) = 0` whenever the
attacker has fewer than two crew, for any number of defenders; but with
one attacker and zero defenders the code returns `1` (the zero-defender
check comes first). -/
theorem odds_one_attacker_zero_defenders :
    odds [1, 1] [1] 1 0 = 1 ∧ (1 : ℤ) < 2 ∧ (1 : ℚ) ≠ 0 := by
  refine ⟨by norm_num [odds], by norm_num, by norm_num⟩

/-- C4 (amended): `Odds(a, 0) = 1` for every attacker crew count, and
`Odds(a, d) = 0` whenever the attacker has fewer than two crew and the
defender count is nonzero. -/
theorem odds_boundary_amended (pa pd : List ℚ) (a d : ℤ) :
    (d = 0 → odds pa pd a d = 1) ∧ (a < 2 → d ≠ 0 → odds pa pd a d = 0) := by
  constructor
  · intro h
    simp [odds, h]
  · intro ha hd
    simp only [odds, if_neg hd]
    rw [if_pos (Or.inl ha)]

/-- C4 witness: the amended boundary theorem applied at concrete crews. -/
theorem odds_boundary_amended_witness :
    odds [1, 1] [1] 7 0 = 1 ∧ odds [1, 1] [1] 1 1 = 0 :=
  ⟨(odds_boundary_amended [1, 1] [1] 7 0).1 rfl,
    (odds_boundary_amended [1, 1] [1] 1 1).2 (by norm_num) (by norm_num)⟩

/-- C5: with `powerAttacker` of size 3 and `powerDefender` of size 1, the
lookup tables have 3 entries, yet `Index(4, 1) = 3` passes the guards
(`Index` compares with `>` where its siblings use `>=`), so
`Odds(4, 1)` reads `captureChance[3]`, one past the end of the vector —
and `Odds(2, 2)`, whose defender count is outside the precomputed range,
maps to the in-bounds cell of `(3, 1)` and returns its nonzero value
instead of 0, as do `AttackerCasualties` and `DefenderCasualties`. -/
theorem capture_odds_query_escapes_table :
    capIndex [1, 1, 1] [1] 4 1 = 3
    ∧ (captureChance [1, 1, 1] [1]).length = 3
    ∧ ¬((4 : ℤ) < 2 ∨ capIndex [1, 1, 1] [1] 4 1 < 0)
    ∧ capIndex [1, 1, 1] [1] 2 2 = 2
    ∧ odds [1, 1, 1] [1] 2 2 = 3 / 4
    ∧ attackerCasualties [1, 1, 1] [1] 2 2 = 3 / 4
    ∧ defenderCasualties [1, 1, 1] [1] 2 2 = 3 / 4
    ∧ (3 / 4 : ℚ) ≠ 0 := by
  refine ⟨by norm_num [capIndex, castU32], ?_, by norm_num [capIndex, castU32],
    by norm_num [capIndex, castU32], ?_, ?_, ?_, by norm_num⟩
  · norm_num [captureChance, ccRows, ccRow, ccRowAux, List.replicate]
  · norm_num [odds, capIndex, castU32, captureChance, ccRows, ccRow, ccRowAux, List.replicate]
    rfl
  · norm_num [attackerCasualties, capIndex, castU32, casualtiesAttacker, caRows, caRow, caRowAux,
      List.replicate]
    rfl
  · norm_num [defenderCasualties, capIndex, castU32, casualtiesDefender, cdRows, cdRow, cdRowAux,
      List.replicate]
    rfl

/-- C9: when a combatant's intent is no longer valid against the current
state and negotiation (the re-validation inside `AttemptAction` answers
`false`), `AttemptAction` returns an Action whose actual activity is the
Null placeholder, whose Effect leaves state and negotiation unchanged
with zero casualty rolls, and whose Effect records the originally
intended objective as the casualty objective. -/
theorem attempt_action_invalid_intent_yields_null (langShared : Bool) (casualtyPct : ℚ)
    (c : CombatantCtx) (state : State) (negotiation : Negotiation)
    (intent enemyIntent : Activity) (enemyPower r1 r2 : ℚ)
    (h : isValidActivity intent (validObjectives state negotiation c.isBoarder) false
      = .ok false) :
    attemptAction langShared casualtyPct c state negotiation intent enemyIntent enemyPower r1 r2
      = .ok ⟨intent, nullActivity, ⟨state, negotiation, intent.objective, 0⟩⟩ := by
  simp only [attemptAction, h, exceptBind_ok, Bool.not_false, if_true, exceptPure_def]

/-- C9 witness: the boarder attempts `Attack` after the combat has
already reached `Ended`; the intent is invalid there and the returned
action is the Null placeholder with the original objective recorded. -/
theorem attempt_action_invalid_intent_yields_null_witness :
    attemptAction true 1 ⟨true, 1, 1, 0, 2, 2⟩ .Ended .NotAttempted
      ⟨.Attack, .boolD false⟩ ⟨.Defend, .boolD false⟩ 1 0 0
      = .ok ⟨⟨.Attack, .boolD false⟩, nullActivity,
          ⟨.Ended, .NotAttempted, .Attack, 0⟩⟩ :=
  attempt_action_invalid_intent_yields_null true 1 ⟨true, 1, 1, 0, 2, 2⟩ .Ended .NotAttempted
    ⟨.Attack, .boolD false⟩ ⟨.Defend, .boolD false⟩ 1 0 0 rfl

/-! ## AI decision functions (`source/BoardingCombat.cpp`) -/

/-- The fields of `BoardingCombat::SituationReport` that the AI decision
functions modelled below read.  Boolean/map fields are derived from the
latest turn (see `mkReport`); the numeric fields are probability and
profit estimates whose values the theorems leave arbitrary. -/
structure ReportM where
  turnState : State
  isEnemyInvading : Bool
  validObjectives : Objective → Option Bool
  enemyValidObjectives : Objective → Option Bool
  attackPower : ℚ
  defensePower : ℚ
  enemyAttackPower : ℚ
  enemyDefensePower : ℚ
  selfDestructProbability : ℚ
  invasionVictoryProbability : ℚ
  defensiveVictoryProbability : ℚ
  expectedInvasionCasualties : ℚ
  expectedDefensiveCasualties : ℚ
  expectedInvasionProfit : ℤ
  expectedCaptureProfit : ℤ
  expectedPlunderProfit : ℤ
  plunderOptionsEmpty : Bool
  isPlunderFinished : Bool

/-- The numeric/auxiliary report fields that are not derived from the
turn state; used to build a `ReportM` via `mkReport`. -/
structure ReportNums where
  attackPower : ℚ
  defensePower : ℚ
  enemyAttackPower : ℚ
  enemyDefensePower : ℚ
  selfDestructProbability : ℚ
  invasionVictoryProbability : ℚ
  defensiveVictoryProbability : ℚ
  expectedInvasionCasualties : ℚ
  expectedDefensiveCasualties : ℚ
  expectedInvasionProfit : ℤ
  expectedCaptureProfit : ℤ
  expectedPlunderProfit : ℤ
  plunderOptionsEmpty : Bool
  isPlunderFinished : Bool

/-- The derived fields of the `SituationReport` constructor (lines
1584-1690): `isEnemyInvading` compares the turn state against the
enemy's invading state, and the two valid-objective maps are computed
from the turn's state and negotiation for each side. -/
def mkReport (state : State) (negotiation : Negotiation) (isBoarder : Bool)
    (ns : ReportNums) : ReportM where
  turnState := state
  isEnemyInvading :=
    if isBoarder then decide (state = .TargetInvading) else decide (state = .BoarderInvading)
  validObjectives := validObjectives state negotiation isBoarder
  enemyValidObjectives := validObjectives state negotiation (!isBoarder)
  attackPower := ns.attackPower
  defensePower := ns.defensePower
  enemyAttackPower := ns.enemyAttackPower
  enemyDefensePower := ns.enemyDefensePower
  selfDestructProbability := ns.selfDestructProbability
  invasionVictoryProbability := ns.invasionVictoryProbability
  defensiveVictoryProbability := ns.defensiveVictoryProbability
  expectedInvasionCasualties := ns.expectedInvasionCasualties
  expectedDefensiveCasualties := ns.expectedDefensiveCasualties
  expectedInvasionProfit := ns.expectedInvasionProfit
  expectedCaptureProfit := ns.expectedCaptureProfit
  expectedPlunderProfit := ns.expectedPlunderProfit
  plunderOptionsEmpty := ns.plunderOptionsEmpty
  isPlunderFinished := ns.isPlunderFinished

/-- The decision-relevant constants of a combatant: its strategies, its
ship's extra crew, and whether its boarding goal is capture. -/
structure CombatantAI where
  attackStrategy : AttackStrategy
  defenseStrategy : DefenseStrategy
  extraCrew : ℤ
  hasCaptureGoal : Bool

/-- The function `BoardingCombat::Combatant::ConsiderAttacking` (lines
553-640).  The early-return ladder of the source is encoded with an
`Option Bool` for the Deny-strategy early returns. -/
def considerAttacking (ai : CombatantAI) (r : ReportM) : Except BoardingErr Bool := do
  let canAttack ← mapAt (r.validObjectives .Attack)
  if !canAttack then return false
  else
    let denyEarly : Except BoardingErr (Option Bool) :=
      if ai.defenseStrategy = .Deny then do
        let enemyCanPlunder ← mapAt (r.enemyValidObjectives .Plunder)
        if enemyCanPlunder then
          pure (some (decide (r.invasionVictoryProbability > r.selfDestructProbability)))
        else if r.isEnemyInvading then
          pure (some (decide (r.invasionVictoryProbability > r.defensiveVictoryProbability)
            && decide (r.invasionVictoryProbability > r.selfDestructProbability)))
        else pure none
      else pure none
    match ← denyEarly with
    | some b => return b
    | none =>
      if r.isEnemyInvading && decide (r.attackPower > r.defensePower) then return true
      else if r.isEnemyInvading
          && decide (r.expectedInvasionCasualties < r.expectedDefensiveCasualties) then
        return true
      else if r.expectedInvasionProfit ≤ 0 then return false
      else if ai.defenseStrategy = .Counter ∧ r.turnState = .Poised
          ∧ (r.expectedInvasionCasualties > r.expectedDefensiveCasualties
            ∨ r.defensePower / r.enemyAttackPower > r.attackPower / r.enemyDefensePower) then
        return false
      else
        match ai.attackStrategy with
        | .Cautious => return (decide (r.invasionVictoryProbability > 99 / 100)
            && decide (r.expectedInvasionCasualties < 1 / 2))
        | .Aggressive => return (decide (r.invasionVictoryProbability > 99 / 100)
            && decide (r.expectedInvasionCasualties < (ai.extraCrew : ℚ)))
        | .Reckless => return decide (r.invasionVictoryProbability > 1 / 2)
        | .Fanatical => return decide (r.invasionVictoryProbability > 1 / 100)

/-- The function `BoardingCombat::Combatant::ConsiderCapturing` (lines
655-664). -/
def considerCapturing (ai : CombatantAI) (r : ReportM) : Except BoardingErr Bool := do
  let canCapture ← mapAt (r.validObjectives .Capture)
  if !canCapture then return false
  else if ai.hasCaptureGoal then return decide (r.expectedCaptureProfit > 0)
  else return decide (r.expectedCaptureProfit > r.expectedPlunderProfit)

/-- The function `BoardingCombat::Combatant::ConsiderDestroying` (lines
679-683). -/
def considerDestroying (r : ReportM) : Except BoardingErr Bool := do
  let canDestroy ← mapAt (r.validObjectives .Destroy)
  return canDestroy && r.plunderOptionsEmpty

/-- The function `BoardingCombat::Combatant::ConsiderPlundering` (lines
696-700). -/
def considerPlundering (r : ReportM) : Except BoardingErr Bool := do
  let canPlunder ← mapAt (r.validObjectives .Plunder)
  return canPlunder && decide (r.expectedPlunderProfit > 0)

/-- The function `BoardingCombat::Combatant::ConsiderSelfDestructing`
(lines 716-745). -/
def considerSelfDestructing (ai : CombatantAI) (r : ReportM) : Except BoardingErr Bool := do
  if r.selfDestructProbability < 1 / 1000 then return false
  else
    match ai.defenseStrategy with
    | .Deny => do
      let enemyCanPlunder ← mapAt (r.enemyValidObjectives .Plunder)
      if enemyCanPlunder then return true
      else
        return (r.isEnemyInvading
          && decide (r.selfDestructProbability > r.defensiveVictoryProbability))
    | .Counter =>
      return (r.isEnemyInvading
        && decide (r.selfDestructProbability > r.defensiveVictoryProbability)
        && decide (r.defensiveVictoryProbability < 1 / 10))
    | .Repel =>
      return (r.isEnemyInvading
        && decide (r.selfDestructProbability > r.defensiveVictoryProbability)
        && decide (r.defensiveVictoryProbability < 1 / 10))

/-- The function `BoardingCombat::Combatant::DetermineDefaultIntent`
(lines 825-848): the if-else ladder that picks the next objective; the
intent starts as the Null placeholder and keeps it when no branch
fires. -/
def determineDefaultIntent (ai : CombatantAI) (r : ReportM) : Except BoardingErr Activity := do
  if ← considerCapturing ai r then return ⟨.Capture, .boolD false⟩
  else if ← considerAttacking ai r then return ⟨.Attack, .boolD false⟩
  else if ← considerSelfDestructing ai r then return ⟨.SelfDestruct, .boolD false⟩
  else if ← considerPlundering r then return ⟨.Plunder, .pairD (-1) (-1)⟩
  else if ← considerDestroying r then return ⟨.Destroy, .boolD false⟩
  else
    let canLeave ← mapAt (r.validObjectives .Leave)
    if canLeave then return ⟨.Leave, .boolD false⟩
    else
      let canDefend ← mapAt (r.validObjectives .Defend)
      if canDefend then return ⟨.Defend, .boolD false⟩
      else return nullActivity

/-- Helper: in the `Ended` state with no active negotiation, every
objective in the valid-objectives map is mapped to `false`, and
`Null`/`Pending` are absent. -/
theorem validObjectives_ended (neg : Negotiation) (h : neg ≠ .Active) (b : Bool) (o : Objective) :
    validObjectives .Ended neg b o
      = (match o with | .Null => none | .Pending => none | _ => some false) := by
  cases neg
  case Active => exact absurd rfl h
  all_goals revert o b
  all_goals decide

/-- Helper: `ConsiderCapturing` declines in the `Ended` state. -/
theorem considerCapturing_ended (ai : CombatantAI) (neg : Negotiation) (h : neg ≠ .Active)
    (b : Bool) (ns : ReportNums) :
    considerCapturing ai (mkReport .Ended neg b ns) = .ok false := by
  simp [considerCapturing, mkReport, validObjectives_ended neg h b, mapAt,
    exceptBind_ok, exceptPure_def]

/-- Helper: `ConsiderAttacking` declines in the `Ended` state. -/
theorem considerAttacking_ended (ai : CombatantAI) (neg : Negotiation) (h : neg ≠ .Active)
    (b : Bool) (ns : ReportNums) :
    considerAttacking ai (mkReport .Ended neg b ns) = .ok false := by
  simp [considerAttacking, mkReport, validObjectives_ended neg h b, mapAt,
    exceptBind_ok, exceptPure_def]

/-- Helper: `ConsiderSelfDestructing` declines in the `Ended` state. -/
theorem considerSelfDestructing_ended (ai : CombatantAI) (neg : Negotiation) (h : neg ≠ .Active)
    (b : Bool) (ns : ReportNums) :
    considerSelfDestructing ai (mkReport .Ended neg b ns) = .ok false := by
  simp only [considerSelfDestructing, mkReport]
  split
  · rfl
  · cases hds : ai.defenseStrategy <;>
      simp [validObjectives_ended neg h (!b), mapAt, exceptBind_ok, exceptPure_def]

/-- Helper: `ConsiderPlundering` declines in the `Ended` state. -/
theorem considerPlundering_ended (neg : Negotiation) (h : neg ≠ .Active)
    (b : Bool) (ns : ReportNums) :
    considerPlundering (mkReport .Ended neg b ns) = .ok false := by
  simp [considerPlundering, mkReport, validObjectives_ended neg h b, mapAt,
    exceptBind_ok, exceptPure_def]

/-- Helper: `ConsiderDestroying` declines in the `Ended` state. -/
theorem considerDestroying_ended (neg : Negotiation) (h : neg ≠ .Active)
    (b : Bool) (ns : ReportNums) :
    considerDestroying (mkReport .Ended neg b ns) = .ok false := by
  simp [considerDestroying, mkReport, validObjectives_ended neg h b, mapAt,
    exceptBind_ok, exceptPure_def]

/-- Helper: projection of the derived valid-objectives map of a report. -/
theorem mkReport_validObjectives (s : State) (n : Negotiation) (b : Bool) (ns : ReportNums) :
    (mkReport s n b ns).validObjectives = validObjectives s n b := rfl

/-- C10: the valid-objectives map never contains the `Null` or `Pending`
objectives, so validating an activity with either objective ends in the
`std::out_of_range` error from the map lookup (not a `false` answer, and
regardless of `shouldThrow`); `DetermineDefaultIntent` returns the
Null-objective intent once the combat has `Ended` (no branch of its
ladder accepts); consequently the `Step` path, which validates the
determined intent inside the `Turn` constructor with `shouldThrow =
true`, fails with `std::out_of_range` instead of resolving a Turn. -/
theorem null_intent_after_ended_hits_out_of_range :
    (∀ (s : State) (n : Negotiation) (b : Bool),
      validObjectives s n b .Null = none ∧ validObjectives s n b .Pending = none)
    ∧ (∀ (ai : CombatantAI) (neg : Negotiation) (b : Bool) (ns : ReportNums),
        neg ≠ .Active →
        determineDefaultIntent ai (mkReport .Ended neg b ns) = .ok nullActivity)
    ∧ (∀ (act : Activity) (s : State) (n : Negotiation) (b st : Bool),
        act.objective = .Null ∨ act.objective = .Pending →
        isValidActivity act (validObjectives s n b) st = .error .outOfRange) := by
  refine ⟨by decide, ?_, ?_⟩
  · intro ai neg b ns h
    simp [determineDefaultIntent,
      considerCapturing_ended ai neg h b ns,
      considerAttacking_ended ai neg h b ns,
      considerSelfDestructing_ended ai neg h b ns,
      considerPlundering_ended neg h b ns,
      considerDestroying_ended neg h b ns,
      mkReport_validObjectives, validObjectives_ended neg h b, mapAt, nullActivity,
      exceptBind_ok, exceptPure_def]
  · intro act s n b st h
    have hnone : validObjectives s n b act.objective = none := by
      rcases h with h | h <;> rw [h] <;> revert s n b <;> decide
    simp [isValidActivity, hnone, mapAt, exceptBind_err]

/-- C10 witness: concrete instances of the three parts, applying the
theorem at the `Ended` state with `NotAttempted` negotiation. -/
theorem null_intent_after_ended_hits_out_of_range_witness :
    validObjectives .Ended .NotAttempted true .Null = none
    ∧ determineDefaultIntent ⟨.Cautious, .Repel, 0, false⟩
        (mkReport .Ended .NotAttempted true ⟨0, 0, 0, 0, 0, 0, 0, 0, 0, 0, 0, 0, true, false⟩)
        = .ok nullActivity
    ∧ isValidActivity nullActivity (validObjectives .Ended .NotAttempted true) true
        = .error .outOfRange :=
  ⟨(null_intent_after_ended_hits_out_of_range.1 .Ended .NotAttempted true).1,
    null_intent_after_ended_hits_out_of_range.2.1 ⟨.Cautious, .Repel, 0, false⟩ .NotAttempted true
      ⟨0, 0, 0, 0, 0, 0, 0, 0, 0, 0, 0, 0, true, false⟩ (by decide),
    null_intent_after_ended_hits_out_of_range.2.2 nullActivity .Ended .NotAttempted true true
      (Or.inl rfl)⟩

/-! ## Casualty application and rolls (`source/BoardingCombat.cpp`) -/

/-- The mutable per-combatant counts during casualty resolution: the
combatant's cached automated invader/defender counters (depleted first by
`ApplyCasualty`, lines 458-468) and the ship's crew.  `shipAutoDefAttr`
mirrors the ship's constant `"automated defenders"` attribute, read by
the external `Ship::Defenders()`; the cached counters that `ApplyCasualty`
decrements are separate members of the combatant. -/
structure Cmbt where
  autoInv : ℤ
  autoDef : ℤ
  crew : ℤ
  shipAutoDefAttr : ℤ
deriving DecidableEq, Repr

/-- Modelled from the spec: `Ship::Defenders()` is not part of these
sources (`Ship` is an external collaborator); per the glossary a
defender count is the "effective crew count when defending, including
automated systems", i.e. the ship's crew plus its automated-defender
attribute. -/
def shipDefenders (c : Cmbt) : ℤ := c.crew + c.shipAutoDefAttr

/-- The function `BoardingCombat::Combatant::ApplyCasualty` (lines
458-468): one casualty disables an automated invader or defender first
(for the matching role, while that counter is nonzero) and otherwise
removes one crew member; it returns the remaining defenders. -/
def applyCasualty (c : Cmbt) (isInvading : Bool) : Cmbt × ℤ :=
  let c' :=
    if isInvading ∧ c.autoInv ≠ 0 then { c with autoInv := c.autoInv - 1 }
    else if ¬isInvading ∧ c.autoDef ≠ 0 then { c with autoDef := c.autoDef - 1 }
    else { c with crew := c.crew - 1 }
  (c', shipDefenders c')

/-- The combined force count of a combatant: crew plus both cached
automation counters.  `ApplyCasualty` decreases exactly one of the three
summands by one. -/
def cmbtTotal (c : Cmbt) : ℤ := c.autoInv + c.autoDef + c.crew

/-- The `BoardingCombat::CasualtyReport` struct. -/
structure CasualtyReport where
  state : State
  boarderCasualties : ℤ
  targetCasualties : ℤ
deriving DecidableEq, Repr

/-- The casualty loop of `BoardingCombat::RollForCasualties` (lines
1990-2010).  `rng` supplies the per-roll `Random::Real()` draws; `bPowF`
and `tPowF` supply each side's `CasualtyPower(objective)` recomputation
(the source reads it from the odds tables of the external probability
object after each casualty; the objective is fixed for the loop).  The
loop stops early, setting the opposing victory state, when the side that
just suffered a casualty reports zero remaining defenders. -/
def rollLoop (bPowF tPowF : Cmbt → ℚ) (rng : ℕ → ℚ) :
    ℕ → ℕ → Cmbt → Cmbt → ℚ → ℚ → CasualtyReport → Cmbt × Cmbt × CasualtyReport
  | 0, _, b, t, _, _, rep => (b, t, rep)
  | fuel + 1, i, b, t, bPow, tPow, rep =>
    let isBoarderCasualty := decide (rng i * (bPow + tPow) ≥ bPow)
    if isBoarderCasualty then
      let rep' := { rep with boarderCasualties := rep.boarderCasualties + 1 }
      let res := applyCasualty b (decide (rep'.state = .BoarderInvading))
      if res.2 = 0 then (res.1, t, { rep' with state := .TargetVictory })
      else rollLoop bPowF tPowF rng fuel (i + 1) res.1 t (bPowF res.1) tPow rep'
    else
      let rep' := { rep with targetCasualties := rep.targetCasualties + 1 }
      let res := applyCasualty t (decide (rep'.state = .TargetInvading))
      if res.2 = 0 then (b, res.1, { rep' with state := .BoarderVictory })
      else rollLoop bPowF tPowF rng fuel (i + 1) b res.1 bPow (tPowF res.1) rep'

/-- The function `BoardingCombat::RollForCasualties` (lines 1965-2015):
the acting side's effect supplies the number of rolls; fewer than one
roll returns the empty report immediately. -/
def rollForCasualties (bPowF tPowF : Cmbt → ℚ) (rng : ℕ → ℚ) (state : State) (isBoarder : Bool)
    (bAction tAction : ActionB) (b t : Cmbt) : Cmbt × Cmbt × CasualtyReport :=
  let report : CasualtyReport := ⟨state, 0, 0⟩
  let rolls := if isBoarder then bAction.effect.casualtyRolls else tAction.effect.casualtyRolls
  if rolls < 1 then (b, t, report)
  else rollLoop bPowF tPowF rng rolls.toNat 0 b t (bPowF b) (tPowF t) report

/-- The function `BoardingCombat::ApplyAttack` (lines 2169-2185): roll
the casualties and report them from the acting side's point of view.
As in the source, the acting side's action and the enemy action are
forwarded positionally into `RollForCasualties`, whose parameters are
named boarder-action and target-action. -/
def applyAttack (bPowF tPowF : Cmbt → ℚ) (rng : ℕ → ℚ) (state : State)
    (negotiation : Negotiation) (isBoarder : Bool) (action enemyAction : ActionB)
    (b t : Cmbt) : Cmbt × Cmbt × AResult :=
  let res := rollForCasualties bPowF tPowF rng state isBoarder action enemyAction b t
  (res.1, res.2.1,
    ⟨res.2.2.state, negotiation,
      if isBoarder then res.2.2.boarderCasualties else res.2.2.targetCasualties,
      if isBoarder then res.2.2.targetCasualties else res.2.2.boarderCasualties⟩)

/-- The function `BoardingCombat::ApplyDefend` (lines 2203-2219), whose
body is identical to `ApplyAttack`. -/
def applyDefend (bPowF tPowF : Cmbt → ℚ) (rng : ℕ → ℚ) (state : State)
    (negotiation : Negotiation) (isBoarder : Bool) (action enemyAction : ActionB)
    (b t : Cmbt) : Cmbt × Cmbt × AResult :=
  let res := rollForCasualties bPowF tPowF rng state isBoarder action enemyAction b t
  (res.1, res.2.1,
    ⟨res.2.2.state, negotiation,
      if isBoarder then res.2.2.boarderCasualties else res.2.2.targetCasualties,
      if isBoarder then res.2.2.targetCasualties else res.2.2.boarderCasualties⟩)

/-- Helper: one applied casualty decreases the combined force count by
exactly one. -/
theorem applyCasualty_total (c : Cmbt) (isInvading : Bool) :
    cmbtTotal (applyCasualty c isInvading).1 = cmbtTotal c - 1 := by
  simp only [applyCasualty, cmbtTotal]
  split
  · simp; ring
  · split
    · simp; ring
    · simp; ring

/-- Helper: across the casualty loop, each side's combined force count
drops by exactly the number of casualties added to the report for that
side. -/
theorem rollLoop_conserves (bPowF tPowF : Cmbt → ℚ) (rng : ℕ → ℚ) :
    ∀ (fuel i : ℕ) (b t : Cmbt) (bPow tPow : ℚ) (rep : CasualtyReport),
    cmbtTotal b - cmbtTotal (rollLoop bPowF tPowF rng fuel i b t bPow tPow rep).1
        = (rollLoop bPowF tPowF rng fuel i b t bPow tPow rep).2.2.boarderCasualties
          - rep.boarderCasualties
    ∧ cmbtTotal t - cmbtTotal (rollLoop bPowF tPowF rng fuel i b t bPow tPow rep).2.1
        = (rollLoop bPowF tPowF rng fuel i b t bPow tPow rep).2.2.targetCasualties
          - rep.targetCasualties := by
  intro fuel
  induction fuel with
  | zero => intro i b t bPow tPow rep; simp [rollLoop]
  | succ n ih =>
    intro i b t bPow tPow rep
    rw [rollLoop]
    dsimp only
    split
    · split
      · have hb := applyCasualty_total b (decide (rep.state = .BoarderInvading))
        dsimp only
        exact ⟨by omega, by omega⟩
      · have h := ih (i + 1) (applyCasualty b (decide (rep.state = .BoarderInvading))).1 t
          (bPowF (applyCasualty b (decide (rep.state = .BoarderInvading))).1) tPow
          ⟨rep.state, rep.boarderCasualties + 1, rep.targetCasualties⟩
        have hb := applyCasualty_total b (decide (rep.state = .BoarderInvading))
        dsimp only at h ⊢
        obtain ⟨h1, h2⟩ := h
        exact ⟨by omega, by omega⟩
    · split
      · have ht := applyCasualty_total t (decide (rep.state = .TargetInvading))
        dsimp only
        exact ⟨by omega, by omega⟩
      · have h := ih (i + 1) b (applyCasualty t (decide (rep.state = .TargetInvading))).1
          bPow (tPowF (applyCasualty t (decide (rep.state = .TargetInvading))).1)
          ⟨rep.state, rep.boarderCasualties, rep.targetCasualties + 1⟩
        have ht := applyCasualty_total t (decide (rep.state = .TargetInvading))
        dsimp only at h ⊢
        obtain ⟨h1, h2⟩ := h
        exact ⟨by omega, by omega⟩

/-- C2 counterexample: in a resolved Attack branch a casualty reported
for the target is absorbed by an automated defender, so the target crew
count does not change: crew-before minus crew-after is `0`, but the
reported enemy casualties are `1`. -/
theorem crew_conservation_fails_with_automation :
    (applyAttack (fun _ => 1) (fun _ => 1) (fun _ => 0) .Poised .NotAttempted true
        ⟨⟨.Attack, .boolD false⟩, ⟨.Attack, .boolD false⟩, ⟨.Poised, .NotAttempted, .Attack, 1⟩⟩
        ⟨⟨.Defend, .boolD false⟩, ⟨.Defend, .boolD false⟩, ⟨.Poised, .NotAttempted, .Defend, 1⟩⟩
        ⟨0, 0, 3, 0⟩ ⟨0, 1, 2, 1⟩).2.1.crew = 2
    ∧ (applyAttack (fun _ => 1) (fun _ => 1) (fun _ => 0) .Poised .NotAttempted true
        ⟨⟨.Attack, .boolD false⟩, ⟨.Attack, .boolD false⟩, ⟨.Poised, .NotAttempted, .Attack, 1⟩⟩
        ⟨⟨.Defend, .boolD false⟩, ⟨.Defend, .boolD false⟩, ⟨.Poised, .NotAttempted, .Defend, 1⟩⟩
        ⟨0, 0, 3, 0⟩ ⟨0, 1, 2, 1⟩).2.2.enemyCasualties = 1
    ∧ (2 : ℤ) - 2 ≠ 1 := by
  refine ⟨?_, ?_, by norm_num⟩ <;>
    norm_num [applyAttack, rollForCasualties, rollLoop, applyCasualty, shipDefenders] <;> simp

/-- C2 (amended): across the casualty rolls of a resolved `Attack` or
`Defend` action, each side's combined force count — crew plus the
combatant's automated invader and defender counters — decreases by
exactly the casualties reported for that side in the action's Result
(the plain crew count can decrease by less, because `ApplyCasualty`
depletes automated units first). -/
theorem casualty_conservation_of_force_counts (bPowF tPowF : Cmbt → ℚ) (rng : ℕ → ℚ)
    (state : State) (negotiation : Negotiation) (isBoarder : Bool)
    (action enemyAction : ActionB) (b t : Cmbt) :
    (cmbtTotal b
        - cmbtTotal (applyAttack bPowF tPowF rng state negotiation isBoarder
            action enemyAction b t).1
      = (if isBoarder
          then (applyAttack bPowF tPowF rng state negotiation isBoarder
            action enemyAction b t).2.2.casualties
          else (applyAttack bPowF tPowF rng state negotiation isBoarder
            action enemyAction b t).2.2.enemyCasualties)
    ∧ cmbtTotal t
        - cmbtTotal (applyAttack bPowF tPowF rng state negotiation isBoarder
            action enemyAction b t).2.1
      = (if isBoarder
          then (applyAttack bPowF tPowF rng state negotiation isBoarder
            action enemyAction b t).2.2.enemyCasualties
          else (applyAttack bPowF tPowF rng state negotiation isBoarder
            action enemyAction b t).2.2.casualties))
    ∧ (cmbtTotal b
        - cmbtTotal (applyDefend bPowF tPowF rng state negotiation isBoarder
            action enemyAction b t).1
      = (if isBoarder
          then (applyDefend bPowF tPowF rng state negotiation isBoarder
            action enemyAction b t).2.2.casualties
          else (applyDefend bPowF tPowF rng state negotiation isBoarder
            action enemyAction b t).2.2.enemyCasualties)
    ∧ cmbtTotal t
        - cmbtTotal (applyDefend bPowF tPowF rng state negotiation isBoarder
            action enemyAction b t).2.1
      = (if isBoarder
          then (applyDefend bPowF tPowF rng state negotiation isBoarder
            action enemyAction b t).2.2.enemyCasualties
          else (applyDefend bPowF tPowF rng state negotiation isBoarder
            action enemyAction b t).2.2.casualties)) := by
  have key : ∀ st : State,
      cmbtTotal b - cmbtTotal (rollForCasualties bPowF tPowF rng st isBoarder
          action enemyAction b t).1
        = (rollForCasualties bPowF tPowF rng st isBoarder
            action enemyAction b t).2.2.boarderCasualties
      ∧ cmbtTotal t - cmbtTotal (rollForCasualties bPowF tPowF rng st isBoarder
          action enemyAction b t).2.1
        = (rollForCasualties bPowF tPowF rng st isBoarder
            action enemyAction b t).2.2.targetCasualties := by
    intro st
    rw [rollForCasualties]
    set rolls := (if isBoarder = true then action.effect.casualtyRolls
      else enemyAction.effect.casualtyRolls) with hrolls
    split
    · simp
    · have h := rollLoop_conserves bPowF tPowF rng
        rolls.toNat 0 b t (bPowF b) (tPowF t) ⟨st, 0, 0⟩
      obtain ⟨h1, h2⟩ := h
      try dsimp only at h1 h2
      exact ⟨by omega, by omega⟩
  constructor
  · cases isBoarder <;>
      simpa [applyAttack] using ⟨(key state).1, (key state).2⟩
  · cases isBoarder <;>
      simpa [applyDefend] using ⟨(key state).1, (key state).2⟩

/-! ## The Turn apply loop (`source/BoardingCombat.cpp`, lines 122-143) -/

/-- A trace of the primary `Turn` constructor's second (apply) loop: the
two `ApplyAction` results, the running state/negotiation after the first
iteration, and the final state/negotiation. -/
structure ApplyPhaseTrace where
  firstResult : AResult
  stateAfterFirst : State
  negotiationAfterFirst : Negotiation
  secondResult : AResult
  finalState : State
  finalNegotiation : Negotiation
deriving DecidableEq, Repr

/-- The apply loop of the primary `Turn` constructor as written (lines
122-143).  `apply` abstracts `combat.ApplyAction` with the two actions
fixed (the boolean is `i = boarderActionIndex`).  After each iteration
the source executes `state = actions[1].result.state` — the result of
the action at index 1, not of the action just applied.  No `Action`
constructor initializes the `result` member, so during iteration `i = 0`
that read returns indeterminate memory, modelled by the arbitrary value
`u`; the second action is then applied at that indeterminate state. -/
def applyPhase (apply : State → Negotiation → Bool → AResult)
    (boarderActionIndex : ℕ) (state : State) (negotiation : Negotiation)
    (u : AResult) : ApplyPhaseTrace :=
  let r0 := apply state negotiation (decide (0 = boarderActionIndex))
  let s1 := u.state
  let n1 := u.negotiation
  let r1 := apply s1 n1 (decide (1 = boarderActionIndex))
  ⟨r0, s1, n1, r1, r1.state, r1.negotiation⟩

/-- The apply loop as the spec describes it (§4.3 steps 3-4, claim C3):
after each apply, the running state and negotiation are taken from the
result of the action that was just applied. -/
def applyPhaseSpec (apply : State → Negotiation → Bool → AResult)
    (boarderActionIndex : ℕ) (state : State) (negotiation : Negotiation) : ApplyPhaseTrace :=
  let r0 := apply state negotiation (decide (0 = boarderActionIndex))
  let s1 := r0.state
  let n1 := r0.negotiation
  let r1 := apply s1 n1 (decide (1 = boarderActionIndex))
  ⟨r0, s1, n1, r1, r1.state, r1.negotiation⟩

/-- C3: in the apply loop as written, the running state and negotiation
after the first apply equal the indeterminate, never-assigned `result`
of the second action (`u`) — for every apply function, every turn order
and every starting state — and the second action is applied at that
indeterminate state, not at the first action's Result as the claim
requires; the spec-faithful loop instead threads the first action's
Result. -/
theorem apply_loop_reads_unassigned_result (apply : State → Negotiation → Bool → AResult)
    (boarderActionIndex : ℕ) (state : State) (negotiation : Negotiation) (u : AResult) :
    (applyPhase apply boarderActionIndex state negotiation u).stateAfterFirst = u.state
    ∧ (applyPhase apply boarderActionIndex state negotiation u).negotiationAfterFirst
        = u.negotiation
    ∧ (applyPhase apply boarderActionIndex state negotiation u).secondResult
        = apply u.state u.negotiation (decide (1 = boarderActionIndex))
    ∧ (applyPhaseSpec apply boarderActionIndex state negotiation).stateAfterFirst
        = (applyPhaseSpec apply boarderActionIndex state negotiation).firstResult.state
    ∧ (applyPhaseSpec apply boarderActionIndex state negotiation).negotiationAfterFirst
        = (applyPhaseSpec apply boarderActionIndex state negotiation).firstResult.negotiation :=
  ⟨rfl, rfl, rfl, rfl, rfl⟩

/-! ## Plunder sessions and ApplyPlunder -/

/-- The state of a `Plunder::Session` at the granularity `ApplyPlunder`
observes: the remaining count of each plunder item of the session's
target ship.  (Names, values and masses play no role in the settled
claims.) -/
structure PSession where
  remaining : List ℤ
deriving DecidableEq, Repr

/-- The function `Plunder::Session::Take(index, pruneList, quantity)`
(`source/Plunder.cpp` lines 295-364).  `remaining.at(index)` throws
`std::out_of_range` for a bad index.  The number of units the attacker
actually absorbs (ammo restock plus cargo capacity — external
`Ship`/`CargoHold` logic) is abstracted by `absorb`; the taken-totals
bookkeeping is omitted.  With `pruneList` set and the whole available
count taken, the item is erased; otherwise the source calls
`UpdateCount(-takenCount)` whose body is `count -= amount`
(`Plunder.cpp` line 181), so the remaining count becomes
`available + takenCount`. -/
def sessionTake (absorb : ℤ → ℤ) (s : PSession) (index : ℤ) (pruneList : Bool)
    (quantity : ℤ) : Except BoardingErr (PSession × ℤ) := do
  if index < 0 ∨ (s.remaining.length : ℤ) ≤ index then throw .outOfRange
  else
    let available := s.remaining.getD index.toNat 0
    let q := if quantity < 0 ∨ available < quantity then available else quantity
    let takenCount := absorb q
    if pruneList ∧ takenCount = available then
      return (⟨s.remaining.eraseIdx index.toNat⟩, takenCount)
    else
      return (⟨s.remaining.set index.toNat (available + takenCount)⟩, takenCount)

/-- Modelled from the spec: the Plunder session's non-selective raid
("take a specific item/quantity, or a non-selective raid of everything").
`Plunder::Session::Raid` is commented out of `source/Plunder.cpp`, so it
is not part of the compiled sources; per the spec and the commented
draft, it takes as much as possible of every item (the absorbable amount
is external, abstracted by `absorb`) and prunes exhausted items. -/
def sessionRaid (absorb : ℤ → ℤ) (s : PSession) : PSession :=
  ⟨(s.remaining.map (fun c => c - absorb c)).filter (fun c => decide (1 ≤ c))⟩

/-- The function `BoardingCombat::ApplyPlunder` (lines 2348-2378).  Each
combatant's session was constructed with the *enemy* ship as its plunder
target, so `bSession.remaining` lists the target ship's items and
`tSession.remaining` the boarder ship's items.  With pair details the
source calls `Take(index, quantity)`, whose second argument binds to the
`pruneList` boolean parameter (a nonzero int converts to `true`) while
the quantity parameter keeps its default `-1`.  The destruction check
reads `enemy->PlunderSession()->RemainingPlunder()` — the level of the
enemy's session, whose remaining list tracks the *actor's* ship's items.
The returned boolean records whether the enemy ship was destroyed. -/
def applyPlunder (absorb : ℤ → ℤ) (state : State) (negotiation : Negotiation)
    (isBoarder : Bool) (action : ActionB) (bSession tSession : PSession)
    (bCrew tCrew : ℤ) : Except BoardingErr (PSession × PSession × Bool × AResult) := do
  let actorSession := if isBoarder then bSession else tSession
  let actorSession' ←
    match action.actual.details with
    | .pairD index quantity =>
      (sessionTake absorb actorSession index (decide (quantity ≠ 0)) (-1)).map Prod.fst
    | _ => pure (sessionRaid absorb actorSession)
  let bSession' := if isBoarder then actorSession' else bSession
  let tSession' := if isBoarder then tSession else actorSession'
  let enemySession := if isBoarder then tSession' else bSession'
  let enemyCrew := if isBoarder then tCrew else bCrew
  if enemySession.remaining.isEmpty then
    return (bSession', tSession', true, ⟨.Ended, negotiation, 0, enemyCrew⟩)
  else
    return (bSession', tSession', false, ⟨state, negotiation, 0, 0⟩)

/-- C7: taking the target's last plunder item does not destroy the
target, because the destruction check consults the enemy's session —
whose remaining list tracks the boarder's own items.  First conjunct:
the boarder takes the single remaining item of the target (the boarder's
session empties) while the target's session still lists a boarder item;
the Result keeps the old state, reports no enemy casualties, and the
target is not destroyed — contradicting the claim.  Second conjunct:
conversely, when the target's session is empty (the *boarder* has
nothing left to plunder), a boarder plunder action destroys the target
even though target items remain — indeed the non-prune update leaves
the taken item's count at `available + takenCount` (`UpdateCount`'s
`count -= amount` applied to `-takenCount`), so the boarder's session
still lists 10 of the item it just emptied. -/
theorem plunder_exhaustion_checks_wrong_session :
    (applyPlunder id .Isolated .NotAttempted true
        ⟨⟨.Plunder, .pairD 0 (-1)⟩, ⟨.Plunder, .pairD 0 (-1)⟩,
          ⟨.Isolated, .NotAttempted, .Plunder, 0⟩⟩
        ⟨[5]⟩ ⟨[3]⟩ 4 6
      = .ok (⟨[]⟩, ⟨[3]⟩, false, ⟨.Isolated, .NotAttempted, 0, 0⟩))
    ∧ (applyPlunder id .Isolated .NotAttempted true
        ⟨⟨.Plunder, .pairD 0 0⟩, ⟨.Plunder, .pairD 0 0⟩,
          ⟨.Isolated, .NotAttempted, .Plunder, 0⟩⟩
        ⟨[5, 7]⟩ ⟨[]⟩ 4 6
      = .ok (⟨[10, 7]⟩, ⟨[]⟩, true, ⟨.Ended, .NotAttempted, 0, 6⟩))
    ∧ State.Isolated ≠ State.Ended ∧ (0 : ℤ) ≠ 6 := by
  refine ⟨rfl, rfl, by decide, by decide⟩

/-! ## BoardingProbability::TotalPower (`source/BoardingProbability.cpp`) -/

/-- The loop of `BoardingProbability::TotalPower` (lines 467-468): each
further entry is `max(minimum, previous + effectiveCrewPower[i])`. -/
def tpLoop (minimum : ℚ) : ℚ → List ℚ → List ℚ
  | _, [] => []
  | last, x :: xs =>
    let v := max minimum (last + x)
    v :: tpLoop minimum v xs

/-- The function `BoardingProbability::TotalPower` (lines 434-471).
`baseCapture` is the ship's `"base capture attack"` or
`"base capture defense"` attribute.  The minimum is `0` when attacking
and `0.001` when defending, and every entry is clamped to at least the
minimum.  (The source reads `effectiveCrewPower[1]` for the second
entry, which is out of bounds when the list has exactly one element;
that read is modelled with a `0` default, on which the floor theorem
below does not depend.) -/
def totalPower (baseCapture : ℚ) (ecp : List ℚ) (isAttacking : Bool) : List ℚ :=
  let minimum : ℚ := if isAttacking then 0 else 1 / 1000
  if ecp.length < 1 then [minimum]
  else
    let second := max minimum (ecp.getD 1 0 + baseCapture)
    if ecp.length < 2 then [minimum, second]
    else minimum :: second :: tpLoop minimum second (ecp.drop 2)

/-- Helper: every entry produced by the `TotalPower` loop is at least the
minimum. -/
theorem tpLoop_mem_ge (minimum : ℚ) :
    ∀ (last : ℚ) (xs : List ℚ) (x : ℚ), x ∈ tpLoop minimum last xs → minimum ≤ x := by
  intro last xs
  induction xs generalizing last with
  | nil => intro x hx; simp [tpLoop] at hx
  | cons y ys ih =>
    intro x hx
    rw [tpLoop] at hx
    rcases List.mem_cons.mp hx with h | h
    · rw [h]; exact le_max_left _ _
    · exact ih _ x h

/-- C8 counterexample: `CaptureOdds::Power` applies no floor at all: a
defenseless ship (no outfits, zero government crew power) yields an
all-zero defense power vector rather than one floored at a positive
epsilon, and with an equally powerless attacker the denominator
`attackPower + powerDefender[0]` of the first division in
`CaptureOdds::Calculate` is exactly 0 — a division by zero. -/
theorem capture_power_has_no_floor :
    capturePower ⟨2, 0, 0, 0, 0, []⟩ true = [0, 0]
    ∧ capturePower ⟨2, 0, 0, 0, 0, []⟩ false = [0, 0]
    ∧ (capturePower ⟨2, 0, 0, 0, 0, []⟩ false).getD 1 0
        + (capturePower ⟨2, 0, 0, 0, 0, []⟩ true).getD 0 0 = 0 := by
  refine ⟨?_, ?_, ?_⟩ <;>
    norm_num [capturePower, sortDesc, cumPower, List.replicate, List.getD]

/-- C8 (amended): in the `BoardingProbability` engine, every entry of a
`TotalPower` table is at least the configured minimum — `0.001` for a
defender and `0` for an attacker — so those tables are floored as the
claim states; the `CaptureOdds` engine applies no such floor (see the
counterexample). -/
theorem total_power_floors_at_minimum (baseCapture : ℚ) (ecp : List ℚ) (isAttacking : Bool) :
    ∀ x ∈ totalPower baseCapture ecp isAttacking,
      (if isAttacking then (0 : ℚ) else 1 / 1000) ≤ x := by
  intro x hx
  rw [totalPower] at hx
  dsimp only at hx
  split at hx
  · rcases List.mem_singleton.mp hx with h
    rw [h]
  · split at hx
    · rcases List.mem_cons.mp hx with h | h
      · rw [h]
      · rcases List.mem_singleton.mp h with h
        rw [h]; exact le_max_left _ _
    · rcases List.mem_cons.mp hx with h | h
      · rw [h]
      · rcases List.mem_cons.mp h with h | h
        · rw [h]; exact le_max_left _ _
        · exact tpLoop_mem_ge _ _ _ x h

/-- C8 witness: the floor theorem applied to a defending ship with no
effective crew: the single table entry is the 0.001 minimum. -/
theorem total_power_floors_at_minimum_witness :
    (1 / 1000 : ℚ) ∈ totalPower 0 [] false ∧ (1 / 1000 : ℚ) ≤ 1 / 1000 := by
  have hm : (1 / 1000 : ℚ) ∈ totalPower 0 [] false := by norm_num [totalPower, tpLoop]
  have h := total_power_floors_at_minimum 0 [] false (1 / 1000) hm
  simp only [if_neg (by decide : ¬(false = true))] at h
  exact ⟨hm, h⟩

/-! ## The capture-chance recurrence and monotonicity (claim C6) -/

/-- The recurrence computed by `CaptureOdds::Calculate` for the capture
chance, indexed by attacker crew `a` and defender crew `d`:
`pCap pa pd a d` is the table cell for `(a, d)`.  `d = 0` is the
implicit boundary of the special case for one remaining defender
(certain capture), the first row `a = 1` is all zeroes (the initial
`resize`), and each further cell blends the cell with one fewer
defender and the cell with one fewer attacker, weighted by the
attacker action chance. -/
def pCap (pa pd : List ℚ) : ℕ → ℕ → ℚ
  | _, 0 => 1
  | 0, _ + 1 => 0
  | 1, _ + 1 => 0
  | a + 2, d + 1 =>
    let ap := pa.getD (a + 1) 0
    let dp := pd.getD d 0
    let chance := ap / (ap + dp)
    chance * pCap pa pd (a + 2) d + (1 - chance) * pCap pa pd (a + 1) (d + 1)
termination_by a d => (a, d)

/-- C6 counterexample: with attacker powers `[1, 2]` (table size 2) and
defender powers `[1]`, `Odds(2, 1) = 2/3` but `Odds(4, 1) = 0` (the
query is out of the precomputed range), so for fixed defender crew `1`
the odds are not monotonically non-decreasing over all attacker crew
counts. -/
theorem odds_not_monotone_beyond_table :
    odds [1, 2] [1] 2 1 = 2 / 3
    ∧ odds [1, 2] [1] 4 1 = 0
    ∧ (2 : ℤ) ≤ 4
    ∧ ¬((2 / 3 : ℚ) ≤ 0) := by
  refine ⟨?_, ?_, by norm_num, by norm_num⟩
  · norm_num [odds, capIndex, castU32, captureChance, ccRows, ccRow, ccRowAux, List.replicate]
  · norm_num [odds, capIndex, castU32]

/-- Helper: reading before the end of the left list of an append. -/
theorem getD_append_lt : ∀ (l r : List ℚ) (n : ℕ), n < l.length →
    (l ++ r).getD n 0 = l.getD n 0 := by
  intro l
  induction l with
  | nil => intro r n h; simp at h
  | cons x xs ih =>
    intro r n h
    cases n with
    | zero => rfl
    | succ m => simpa using ih r m (by simpa using h)

/-- Helper: reading past the left list of an append. -/
theorem getD_append_ge : ∀ (l r : List ℚ) (n : ℕ), l.length ≤ n →
    (l ++ r).getD n 0 = r.getD (n - l.length) 0 := by
  intro l
  induction l with
  | nil => intro r n h; simp
  | cons x xs ih =>
    intro r n h
    cases n with
    | zero => simp at h
    | succ m => simpa using ih r m (by simpa using h)

/-- Helper: any read of an all-zero row yields zero. -/
theorem getD_replicate_zero (k n : ℕ) : (List.replicate k (0 : ℚ)).getD n 0 = 0 := by
  induction k generalizing n with
  | zero => simp
  | succ m ih =>
    cases n with
    | zero => rfl
    | succ j => simpa [List.replicate] using ih j

/-- Helper: length of the inner-loop tail of a table row. -/
theorem ccRowAux_length (ap : ℚ) : ∀ (pds pvs : List ℚ) (last : ℚ),
    pds.length = pvs.length → (ccRowAux ap pds pvs last).length = pds.length := by
  intro pds
  induction pds with
  | nil => intro pvs last _; simp [ccRowAux]
  | cons q qs ih =>
    intro pvs last h
    cases pvs with
    | nil => simp at h
    | cons v vs => simpa [ccRowAux] using ih vs _ (by simpa using h)

/-- Helper: a table row has one cell per defender power entry. -/
theorem ccRow_length (ap : ℚ) (pd prev : List ℚ) (h : prev.length = pd.length) :
    (ccRow ap pd prev).length = pd.length := by
  cases pd with
  | nil => cases prev <;> simp [ccRow]
  | cons q qs =>
    cases prev with
    | nil => simp at h
    | cons v vs => simpa [ccRow] using ccRowAux_length ap qs vs _ (by simpa using h.symm)

/-- Helper: indexing the flattened table when every row has length `D`. -/
theorem flatten_getD_uniform (D : ℕ) : ∀ (L : List (List ℚ)),
    (∀ l ∈ L, l.length = D) → ∀ (i j : ℕ), j < D → i < L.length →
    L.flatten.getD (i * D + j) 0 = (L.getD i []).getD j 0 := by
  intro L
  induction L with
  | nil => intro _ i j _ hi; simp at hi
  | cons l ls ih =>
    intro hlen i j hj hi
    cases i with
    | zero =>
      rw [List.flatten_cons, Nat.zero_mul, Nat.zero_add, List.getD_cons_zero]
      exact getD_append_lt l ls.flatten j (by rw [hlen l (by simp)]; exact hj)
    | succ m =>
      rw [List.flatten_cons, List.getD_cons_succ]
      have hDle : l.length ≤ (m + 1) * D + j := by
        rw [hlen l (by simp)]
        calc D ≤ (m + 1) * D := Nat.le_mul_of_pos_left D (Nat.succ_pos m)
        _ ≤ (m + 1) * D + j := Nat.le_add_right _ _
      rw [getD_append_ge l ls.flatten _ hDle, hlen l (by simp)]
      have harith : (m + 1) * D + j - D = m * D + j := by
        have : (m + 1) * D = m * D + D := by ring
        omega
      rw [harith]
      exact ih (fun x hx => hlen x (by simp [hx])) m j hj (by simpa using hi)

/-- Helper: the unfolded recurrence equation of `pCap` for a cell with at
least two attackers and at least one defender. -/
theorem pCap_eq (pa pd : List ℚ) (n d : ℕ) :
    pCap pa pd (n + 2) (d + 1)
      = pa.getD (n + 1) 0 / (pa.getD (n + 1) 0 + pd.getD d 0) * pCap pa pd (n + 2) d
        + (1 - pa.getD (n + 1) 0 / (pa.getD (n + 1) 0 + pd.getD d 0))
          * pCap pa pd (n + 1) (d + 1) := by
  simp only [pCap]

/-- Helper: the cells written by the inner loop agree with the
recurrence `pCap` for the row of `n + 2` attackers, when the remaining
defender powers (`pds`), the remaining previous-row cells (`pvs`) and
the running value (`last`) sit at offset `off` into the row. -/
theorem ccRowAux_getD_pCap (pa pd : List ℚ) (n : ℕ) :
    ∀ (i off : ℕ) (pds pvs : List ℚ) (last : ℚ),
      pds.length = pvs.length →
      (∀ j, j < pds.length → pds.getD j 0 = pd.getD (off + j + 1) 0) →
      (∀ j, j < pvs.length → pvs.getD j 0 = pCap pa pd (n + 1) (off + j + 2)) →
      last = pCap pa pd (n + 2) (off + 1) →
      i < pds.length →
      (ccRowAux (pa.getD (n + 1) 0) pds pvs last).getD i 0
        = pCap pa pd (n + 2) (off + i + 2) := by
  intro i
  induction i with
  | zero =>
    intro off pds pvs last hlen hq hv hlast hi
    cases pds with
    | nil => simp at hi
    | cons q qs =>
      cases pvs with
      | nil => simp at hlen
      | cons v vs =>
        simp only [ccRowAux, List.getD_cons_zero]
        have hq0 := hq 0 (by simp)
        have hv0 := hv 0 (by simp)
        simp only [List.getD_cons_zero, Nat.add_zero] at hq0 hv0
        have hidx : off + 0 + 2 = off + 1 + 1 := by omega
        rw [hidx, pCap_eq pa pd n (off + 1), hq0, hv0, hlast]
  | succ m ih =>
    intro off pds pvs last hlen hq hv hlast hi
    cases pds with
    | nil => simp at hi
    | cons q qs =>
      cases pvs with
      | nil => simp at hlen
      | cons v vs =>
        simp only [ccRowAux, List.getD_cons_succ]
        have hq0 := hq 0 (by simp)
        have hv0 := hv 0 (by simp)
        simp only [List.getD_cons_zero, Nat.add_zero] at hq0 hv0
        have hlast2 : pa.getD (n + 1) 0 / (pa.getD (n + 1) 0 + q) * last
            + (1 - pa.getD (n + 1) 0 / (pa.getD (n + 1) 0 + q)) * v
            = pCap pa pd (n + 2) (off + 1 + 1) := by
          rw [pCap_eq pa pd n (off + 1), hq0, hv0, hlast]
        have hres := ih (off + 1) qs vs
          (pa.getD (n + 1) 0 / (pa.getD (n + 1) 0 + q) * last
            + (1 - pa.getD (n + 1) 0 / (pa.getD (n + 1) 0 + q)) * v)
          (by simpa using hlen)
          (by
            intro j hj
            have := hq (j + 1) (by simpa using Nat.succ_lt_succ hj)
            simp only [List.getD_cons_succ] at this
            have hidx : off + (j + 1) + 1 = off + 1 + j + 1 := by omega
            rw [← hidx]
            exact this)
          (by
            intro j hj
            have := hv (j + 1) (by simpa using Nat.succ_lt_succ hj)
            simp only [List.getD_cons_succ] at this
            have hidx : off + (j + 1) + 2 = off + 1 + j + 2 := by omega
            rw [← hidx]
            exact this)
          hlast2
          (by simpa using hi)
        have hidx2 : off + 1 + m + 2 = off + (m + 1) + 2 := by omega
        rw [← hidx2]
        exact hres

/-- Helper: the boundary value of `pCap` with no defenders. -/
theorem pCap_zero_def (pa pd : List ℚ) (a : ℕ) : pCap pa pd a 0 = 1 := by
  cases a <;> simp [pCap]

/-- Helper: the first row of the table (one attacker) is all zeroes. -/
theorem pCap_one (pa pd : List ℚ) (d : ℕ) : pCap pa pd 1 (d + 1) = 0 := by
  simp [pCap]

/-- Helper: a full row produced by `ccRow` from the row for `n + 1`
attackers agrees with `pCap` for `n + 2` attackers. -/
theorem ccRow_getD_pCap (pa pd : List ℚ) (n : ℕ) (prev : List ℚ)
    (hlen : prev.length = pd.length)
    (hprev : ∀ j, j < pd.length → prev.getD j 0 = pCap pa pd (n + 1) (j + 1)) :
    ∀ j, j < pd.length →
      (ccRow (pa.getD (n + 1) 0) pd prev).getD j 0 = pCap pa pd (n + 2) (j + 1) := by
  cases pd with
  | nil => intro j hj; simp at hj
  | cons pd0 pds =>
    cases prev with
    | nil => intro j hj; simp at hlen
    | cons pv0 pvs =>
      have hpv0 := hprev 0 (by simp)
      simp only [List.getD_cons_zero] at hpv0
      have hcell : pa.getD (n + 1) 0 / (pa.getD (n + 1) 0 + pd0)
          + (1 - pa.getD (n + 1) 0 / (pa.getD (n + 1) 0 + pd0)) * pv0
          = pCap pa (pd0 :: pds) (n + 2) 1 := by
        rw [show (1 : ℕ) = 0 + 1 from rfl, pCap_eq pa (pd0 :: pds) n 0]
        simp only [List.getD_cons_zero, pCap_zero_def]
        rw [hpv0]
        ring
      intro j hj
      cases j with
      | zero =>
        simp only [ccRow, List.getD_cons_zero]
        exact hcell
      | succ i =>
        simp only [ccRow, List.getD_cons_succ]
        have hres := ccRowAux_getD_pCap pa (pd0 :: pds) n i 0 pds pvs
          (pa.getD (n + 1) 0 / (pa.getD (n + 1) 0 + pd0)
            + (1 - pa.getD (n + 1) 0 / (pa.getD (n + 1) 0 + pd0)) * pv0)
          (by simpa using hlen.symm)
          (by
            intro jj hjj
            have hidx : 0 + jj + 1 = jj + 1 := by omega
            rw [hidx]
            simp)
          (by
            intro jj hjj
            have hl : pvs.length = pds.length := by simpa using hlen
            have := hprev (jj + 1)
              (by simp only [List.length_cons]; omega)
            simp only [List.getD_cons_succ] at this
            have hidx : 0 + jj + 2 = jj + 1 + 1 := by omega
            rw [hidx]
            exact this)
          (by rw [hcell])
          (by simpa using hj)
        have hidx2 : 0 + i + 2 = i + 1 + 1 := by omega
        rw [hidx2] at hres
        exact hres

/-- Row `a` (attacker crew `a`, 1-based) of the capture-chance table: row
1 is the all-zero row from the initial `resize`; each later row is built
by the outer loop from the previous row with that attacker power. -/
def rowOf (pa pd : List ℚ) : ℕ → List ℚ
  | 0 => []
  | 1 => List.replicate pd.length 0
  | a + 2 => ccRow (pa.getD (a + 1) 0) pd (rowOf pa pd (a + 1))

/-- Helper: every (1-based) row has one cell per defender power entry. -/
theorem rowOf_length (pa pd : List ℚ) : ∀ a, (rowOf pa pd (a + 1)).length = pd.length := by
  intro a
  induction a with
  | zero => simp [rowOf]
  | succ n ih =>
    rw [show n + 1 + 1 = n + 2 from rfl, rowOf]
    exact ccRow_length _ _ _ ih

/-- Helper: every row cell agrees with the recurrence `pCap`. -/
theorem rowOf_getD_pCap (pa pd : List ℚ) : ∀ a j, j < pd.length →
    (rowOf pa pd (a + 1)).getD j 0 = pCap pa pd (a + 1) (j + 1) := by
  intro a
  induction a with
  | zero =>
    intro j hj
    rw [show (0 : ℕ) + 1 = 1 from rfl, rowOf, getD_replicate_zero, pCap_one]
  | succ n ih =>
    intro j hj
    rw [show n + 1 + 1 = n + 2 from rfl, rowOf]
    exact ccRow_getD_pCap pa pd n (rowOf pa pd (n + 1)) (rowOf_length pa pd n) ih j hj

/-- Helper: every row stored by the outer loop has one cell per defender
power entry. -/
theorem ccRows_mem_length (pd : List ℚ) : ∀ (aps prev : List ℚ), prev.length = pd.length →
    ∀ r ∈ ccRows pd prev aps, r.length = pd.length := by
  intro aps
  induction aps with
  | nil => intro prev _ r hr; simp [ccRows] at hr
  | cons x xs ih =>
    intro prev hp r hr
    simp only [ccRows] at hr
    rcases List.mem_cons.mp hr with h | h
    · rw [h]; exact ccRow_length x pd prev hp
    · exact ih (ccRow x pd prev) (ccRow_length x pd prev hp) r h

/-- Helper: in-range `getD` agrees with `getElem`. -/
theorem getD_of_lt (l : List ℚ) (n : ℕ) (h : n < l.length) : l.getD n 0 = l[n] := by
  rw [List.getD_eq_getElem?_getD, List.getElem?_eq_getElem h]
  rfl

/-- Helper: the outer loop, started from row `k + 1` on the attacker
powers past position `k`, stores exactly the rows `k + 2`, `k + 3`, .... -/
theorem ccRows_getD_rowOf (pa pd : List ℚ) : ∀ (i k : ℕ), i + k + 1 < pa.length →
    (ccRows pd (rowOf pa pd (k + 1)) (pa.drop (k + 1))).getD i []
      = rowOf pa pd (k + 2 + i) := by
  intro i
  induction i with
  | zero =>
    intro k hk
    have hk1 : k + 1 < pa.length := by omega
    rw [List.drop_eq_getElem_cons hk1]
    simp only [ccRows, List.getD_cons_zero]
    rw [show k + 2 + 0 = k + 2 from rfl, rowOf]
    rw [getD_of_lt pa (k + 1) hk1]
  | succ m ih =>
    intro k hk
    have hk1 : k + 1 < pa.length := by omega
    rw [List.drop_eq_getElem_cons hk1]
    simp only [ccRows, List.getD_cons_succ]
    have hrow : ccRow pa[k + 1] pd (rowOf pa pd (k + 1)) = rowOf pa pd (k + 2) := by
      rw [rowOf, getD_of_lt pa (k + 1) hk1]
    rw [hrow]
    have hres := ih (k + 1) (by omega)
    rw [show k + 1 + 1 = k + 2 from rfl] at hres
    rw [show k + 1 + 2 + m = k + 2 + (m + 1) from by omega] at hres
    exact hres

/-- Helper (main linkage): within the precomputed range, the flat
`captureChance` vector holds exactly the recurrence values `pCap`. -/
theorem captureChance_getD_pCap (pa pd : List ℚ) (hpa : pa ≠ []) (hpd : pd ≠ [])
    (a j : ℕ) (ha1 : 1 ≤ a) (ha2 : a ≤ pa.length) (hj : j < pd.length) :
    (captureChance pa pd).getD ((a - 1) * pd.length + j) 0 = pCap pa pd a (j + 1) := by
  rw [captureChance]
  rw [if_neg (by simp [hpa, hpd])]
  have hrepl : List.replicate pd.length (0 : ℚ) = rowOf pa pd 1 := by rw [rowOf]
  have htail : pa.tail = pa.drop 1 := by rw [List.drop_one]
  rw [hrepl, htail]
  have hflat : rowOf pa pd 1 ++ (ccRows pd (rowOf pa pd 1) (pa.drop 1)).flatten
      = (rowOf pa pd 1 :: ccRows pd (rowOf pa pd 1) (pa.drop 1)).flatten := by
    rw [List.flatten_cons]
  rw [hflat]
  have hlen1 : (rowOf pa pd 1).length = pd.length := rowOf_length pa pd 0
  have hlenall : ∀ l ∈ rowOf pa pd 1 :: ccRows pd (rowOf pa pd 1) (pa.drop 1),
      l.length = pd.length := by
    intro l hl
    rcases List.mem_cons.mp hl with h | h
    · rw [h]; exact hlen1
    · exact ccRows_mem_length pd (pa.drop 1) (rowOf pa pd 1) hlen1 l h
  have hpalen : 1 ≤ pa.length := by
    cases pa with
    | nil => exact absurd rfl hpa
    | cons x xs => simp
  have hLlen : (rowOf pa pd 1 :: ccRows pd (rowOf pa pd 1) (pa.drop 1)).length = pa.length := by
    have hcc : ∀ (aps prev : List ℚ), (ccRows pd prev aps).length = aps.length := by
      intro aps
      induction aps with
      | nil => intro prev; simp [ccRows]
      | cons x xs ih => intro prev; simp only [ccRows, List.length_cons, ih]
    rw [List.length_cons, hcc, List.length_drop]
    omega
  rw [flatten_getD_uniform pd.length _ hlenall (a - 1) j hj (by rw [hLlen]; omega)]
  cases a with
  | zero => omega
  | succ n =>
    cases n with
    | zero =>
      simp only [Nat.sub_self, List.getD_cons_zero]
      exact rowOf_getD_pCap pa pd 0 j hj
    | succ m =>
      rw [show m + 1 + 1 - 1 = m + 1 from rfl, List.getD_cons_succ]
      rw [ccRows_getD_rowOf pa pd m 0 (by omega)]
      rw [show (0 : ℕ) + 2 + m = m + 1 + 1 from by omega]
      exact rowOf_getD_pCap pa pd (m + 1) j hj

/-- Helper: any `getD` read of a list of non-negative values is
non-negative. -/
theorem getD_nonneg (l : List ℚ) (h : ∀ x ∈ l, 0 ≤ x) (n : ℕ) : 0 ≤ l.getD n 0 := by
  by_cases hn : n < l.length
  · rw [getD_of_lt l n hn]
    exact h _ (l.getElem_mem hn)
  · rw [List.getD_eq_getElem?_getD, List.getElem?_eq_none (by omega)]
    exact le_refl 0

/-- Helper: `getD` reads of a sorted list are monotone while the larger
index stays in range. -/
theorem getD_mono_sorted (l : List ℚ) (hs : l.Sorted (· ≤ ·)) (i j : ℕ) (hij : i ≤ j)
    (hj : j < l.length) : l.getD i 0 ≤ l.getD j 0 := by
  rcases eq_or_lt_of_le hij with h | h
  · rw [h]
  · rw [getD_of_lt l i (by omega), getD_of_lt l j hj]
    exact (List.pairwise_iff_getElem.mp hs) i j (by omega) hj h

/-- Helper: an action chance `x / (x + y)` with non-negative inputs lies
in `[0, 1]` (in `ℚ`, division by a zero total yields `0`). -/
theorem chance_bounds (x y : ℚ) (hx : 0 ≤ x) (hy : 0 ≤ y) :
    0 ≤ x / (x + y) ∧ x / (x + y) ≤ 1 := by
  rcases eq_or_lt_of_le (add_nonneg hx hy) with h | h
  · rw [← h, div_zero]
    norm_num
  · exact ⟨div_nonneg hx (le_of_lt h), by rw [div_le_one h]; linarith⟩

/-- Helper: the action chance is monotone in its numerator power. -/
theorem chance_mono (x y z : ℚ) (hx : 0 ≤ x) (hxy : x ≤ y) (hz : 0 ≤ z) :
    x / (x + z) ≤ y / (y + z) := by
  rcases eq_or_lt_of_le (add_nonneg (le_trans hx hxy) hz) with h | h
  · have hx0 : x = 0 := by linarith
    have hy0 : y = 0 := by linarith
    have hz0 : z = 0 := by linarith
    rw [hx0, hy0, hz0]
  · rcases eq_or_lt_of_le (add_nonneg hx hz) with h2 | h2
    · have hx0 : x = 0 := by linarith
      rw [hx0, zero_div]
      exact div_nonneg (by linarith) (le_of_lt h)
    · rw [div_le_div_iff h2 h]
      nlinarith

/-- Helper: every cell of the capture-chance recurrence lies in `[0, 1]`
when both power lists are non-negative. -/
theorem pCap_bounds (pa pd : List ℚ) (hpa0 : ∀ x ∈ pa, 0 ≤ x) (hpd0 : ∀ x ∈ pd, 0 ≤ x) :
    ∀ a d : ℕ, 0 ≤ pCap pa pd a d ∧ pCap pa pd a d ≤ 1 := by
  intro a
  induction a using Nat.strong_induction_on with
  | _ a iha =>
    intro d
    induction d using Nat.strong_induction_on with
    | _ d ihd =>
      rcases d with _ | e
      · rw [pCap_zero_def]; norm_num
      · rcases a with _ | a1
        · simp [pCap]
        · rcases a1 with _ | n
          · rw [pCap_one]; norm_num
          · rw [pCap_eq]
            have hch := chance_bounds (pa.getD (n + 1) 0) (pd.getD e 0)
              (getD_nonneg pa hpa0 _) (getD_nonneg pd hpd0 _)
            have h1 := ihd e (by omega)
            have h2 := iha (n + 1) (by omega) (e + 1)
            constructor
            · have p1 := mul_nonneg hch.1 h1.1
              have p2 := mul_nonneg (by linarith [hch.2] : (0 : ℚ) ≤ 1
                - pa.getD (n + 1) 0 / (pa.getD (n + 1) 0 + pd.getD e 0)) h2.1
              linarith
            · nlinarith [hch.1, hch.2, h1.1, h1.2, h2.1, h2.2]

/-- Helper: within the attacker table range, the capture chance is
antitone in the defender crew and monotone in the attacker crew.  The
attacker power list must be sorted (it is a cumulative sum in the
source) and both power lists non-negative. -/
theorem pCap_anti_mono (pa pd : List ℚ) (hpa0 : ∀ x ∈ pa, 0 ≤ x) (hpd0 : ∀ x ∈ pd, 0 ≤ x)
    (hpaS : pa.Sorted (· ≤ ·)) :
    ∀ a d : ℕ,
      (a ≤ pa.length → pCap pa pd a (d + 1) ≤ pCap pa pd a d)
      ∧ (a + 1 ≤ pa.length → pCap pa pd a d ≤ pCap pa pd (a + 1) d) := by
  intro a
  induction a using Nat.strong_induction_on with
  | _ a iha =>
    intro d
    induction d using Nat.strong_induction_on with
    | _ d ihd =>
      constructor
      · -- antitone step in the defender crew
        intro ha
        rcases a with _ | a1
        · rcases d with _ | e
          · rw [pCap_zero_def]; simp [pCap]
          · simp [pCap]
        · rcases a1 with _ | n
          · rcases d with _ | e
            · rw [pCap_zero_def, pCap_one]; norm_num
            · rw [pCap_one, pCap_one]
          · rw [pCap_eq]
            have hch := chance_bounds (pa.getD (n + 1) 0) (pd.getD d 0)
              (getD_nonneg pa hpa0 _) (getD_nonneg pd hpd0 _)
            have hAnti := (iha (n + 1) (by omega) d).1 (by omega)
            have hMono := (iha (n + 1) (by omega) d).2 (by omega)
            have hchain : pCap pa pd (n + 1) (d + 1) ≤ pCap pa pd (n + 2) d :=
              le_trans hAnti hMono
            nlinarith [hch.1, hch.2, hchain]
      · -- monotone step in the attacker crew
        intro ha
        rcases d with _ | e
        · rw [pCap_zero_def, pCap_zero_def]
        · rcases a with _ | a1
          · simp [pCap]
          · rcases a1 with _ | n
            · rw [pCap_one]
              exact (pCap_bounds pa pd hpa0 hpd0 2 (e + 1)).1
            · have hLHS := pCap_eq pa pd n e
              have hRHS := pCap_eq pa pd (n + 1) e
              rw [show n + 2 + 1 = n + 1 + 2 from rfl, hLHS, hRHS]
              have hch := chance_bounds (pa.getD (n + 1) 0) (pd.getD e 0)
                (getD_nonneg pa hpa0 _) (getD_nonneg pd hpd0 _)
              have hch2 := chance_bounds (pa.getD (n + 2) 0) (pd.getD e 0)
                (getD_nonneg pa hpa0 _) (getD_nonneg pd hpd0 _)
              have hchm : pa.getD (n + 1) 0 / (pa.getD (n + 1) 0 + pd.getD e 0)
                  ≤ pa.getD (n + 2) 0 / (pa.getD (n + 2) 0 + pd.getD e 0) :=
                chance_mono _ _ _ (getD_nonneg pa hpa0 _)
                  (getD_mono_sorted pa hpaS (n + 1) (n + 2) (by omega) (by omega))
                  (getD_nonneg pd hpd0 _)
              have hF1 : pCap pa pd (n + 2) e ≤ pCap pa pd (n + 2 + 1) e :=
                (ihd e (by omega)).2 ha
              have hF2 : pCap pa pd (n + 1) (e + 1) ≤ pCap pa pd (n + 1 + 1) (e + 1) :=
                (iha (n + 1) (by omega) (e + 1)).2 (by omega)
              have hF4 : pCap pa pd (n + 1) (e + 1) ≤ pCap pa pd (n + 2) e :=
                le_trans ((iha (n + 1) (by omega) e).1 (by omega))
                  ((iha (n + 1) (by omega) e).2 (by omega))
              rw [show n + 2 + 1 = n + 1 + 2 from rfl] at hF1
              rw [show n + 1 + 1 = n + 2 from rfl] at hF2
              nlinarith [hch.1, hch.2, hch2.1, hch2.2, hchm, hF1, hF2, hF4,
                (pCap_bounds pa pd hpa0 hpd0 (n + 2) e).1,
                (pCap_bounds pa pd hpa0 hpd0 (n + 1) (e + 1)).1]

/-- Helper: iterated attacker-monotonicity over the table range. -/
theorem pCap_mono_range (pa pd : List ℚ) (hpa0 : ∀ x ∈ pa, 0 ≤ x) (hpd0 : ∀ x ∈ pd, 0 ≤ x)
    (hpaS : pa.Sorted (· ≤ ·)) (d : ℕ) :
    ∀ (x y : ℕ), x ≤ y → y ≤ pa.length → pCap pa pd x d ≤ pCap pa pd y d := by
  intro x y hxy
  induction y, hxy using Nat.le_induction with
  | base => intro _; exact le_refl _
  | succ n hn ih =>
    intro hy
    exact le_trans (ih (by omega)) ((pCap_anti_mono pa pd hpa0 hpd0 hpaS n d).2 hy)

/-- Helper: evaluation of `Odds` strictly inside the precomputed range:
the query returns the recurrence value of its cell. -/
theorem odds_eval_in_range (pa pd : List ℚ)
    (hpaB : (pa.length : ℤ) < 4294967296) (hpdB : (pd.length : ℤ) < 4294967296)
    (x d : ℤ) (hx2 : 2 ≤ x) (hxA : x ≤ (pa.length : ℤ))
    (hd1 : 1 ≤ d) (hdD : d ≤ (pd.length : ℤ)) :
    odds pa pd x d = pCap pa pd x.toNat d.toNat := by
  obtain ⟨xn, rfl⟩ : ∃ xn : ℕ, x = (xn : ℤ) := ⟨x.toNat, (Int.toNat_of_nonneg (by omega)).symm⟩
  obtain ⟨dn, rfl⟩ : ∃ dn : ℕ, d = (dn : ℤ) := ⟨d.toNat, (Int.toNat_of_nonneg (by omega)).symm⟩
  have hxn : 2 ≤ xn := by exact_mod_cast hx2
  have hdn : 1 ≤ dn := by exact_mod_cast hd1
  have hA : xn ≤ pa.length := by exact_mod_cast hxA
  have hD : dn ≤ pd.length := by exact_mod_cast hdD
  have hpa_ne : pa ≠ [] := by
    intro h
    rw [h] at hA
    simp at hA
    omega
  have hpd_ne : pd ≠ [] := by
    intro h
    rw [h] at hD
    simp at hD
    omega
  have hcast1 : castU32 ((xn : ℤ) - 1) = (xn : ℤ) - 1 :=
    Int.emod_eq_of_lt (by omega) (by omega)
  have hcast2 : castU32 ((dn : ℤ) - 1) = (dn : ℤ) - 1 :=
    Int.emod_eq_of_lt (by omega) (by omega)
  have hidx : capIndex pa pd (xn : ℤ) (dn : ℤ)
      = (((xn - 1) * pd.length + (dn - 1) : ℕ) : ℤ) := by
    rw [capIndex, if_neg (by rw [hcast1]; omega), if_neg (by rw [hcast2]; omega)]
    push_cast [Nat.cast_sub (by omega : 1 ≤ xn), Nat.cast_sub (by omega : 1 ≤ dn)]
    ring
  simp only [odds]
  rw [if_neg (by omega : ¬((dn : ℤ) = 0))]
  rw [hidx]
  rw [if_neg (by push_cast; omega)]
  rw [Int.toNat_ofNat]
  have hlink := captureChance_getD_pCap pa pd hpa_ne hpd_ne xn (dn - 1)
    (by omega) hA (by omega)
  rw [hlink, show dn - 1 + 1 = dn from by omega, Int.toNat_ofNat, Int.toNat_ofNat]

/-- C6 (amended): for a fixed defender crew count within the defender
table range, `Odds(a, d)` is monotonically non-decreasing in the
attacker crew count `a` over the precomputed attacker range
`0 ≤ a ≤ powerAttacker.size()`, provided the power vectors are
non-negative and the attacker powers non-decreasing (as the cumulative
sums built by `Power` are) and the table sizes fit in an `unsigned`.
Beyond the table the odds drop back to zero (see the counterexample), so
the claim's unrestricted monotonicity fails. -/
theorem odds_monotone_in_attacker_amended (pa pd : List ℚ)
    (hpaS : pa.Sorted (· ≤ ·)) (hpa0 : ∀ x ∈ pa, 0 ≤ x) (hpd0 : ∀ x ∈ pd, 0 ≤ x)
    (hpaB : (pa.length : ℤ) < 4294967296) (hpdB : (pd.length : ℤ) < 4294967296)
    (a b d : ℤ) (ha0 : 0 ≤ a) (hab : a ≤ b) (hbA : b ≤ (pa.length : ℤ))
    (hd0 : 0 ≤ d) (hdD : d ≤ (pd.length : ℤ)) :
    odds pa pd a d ≤ odds pa pd b d := by
  by_cases hd : d = 0
  · subst hd
    simp [odds]
  · have hd1 : 1 ≤ d := by omega
    by_cases hb2 : b < 2
    · have ha2 : a < 2 := by omega
      have h1 : odds pa pd a d = 0 := by
        simp only [odds]
        rw [if_neg hd, if_pos (Or.inl ha2)]
      have h2 : odds pa pd b d = 0 := by
        simp only [odds]
        rw [if_neg hd, if_pos (Or.inl hb2)]
      rw [h1, h2]
    · have hb2x : 2 ≤ b := by omega
      rw [odds_eval_in_range pa pd hpaB hpdB b d hb2x hbA hd1 hdD]
      by_cases ha2 : a < 2
      · have h1 : odds pa pd a d = 0 := by
          simp only [odds]
          rw [if_neg hd, if_pos (Or.inl ha2)]
        rw [h1]
        exact (pCap_bounds pa pd hpa0 hpd0 b.toNat d.toNat).1
      · have ha2x : 2 ≤ a := by omega
        rw [odds_eval_in_range pa pd hpaB hpdB a d ha2x (by omega) hd1 hdD]
        exact pCap_mono_range pa pd hpa0 hpd0 hpaS d.toNat a.toNat b.toNat
          (by omega) (by omega)

/-- C6 witness: the amended monotonicity applied at the concrete table
`powerAttacker = [1, 2]`, `powerDefender = [1]` with attacker crews 1 and
2 and one defender. -/
theorem odds_monotone_in_attacker_amended_witness :
    odds [1, 2] [1] 1 1 ≤ odds [1, 2] [1] 2 1 :=
  odds_monotone_in_attacker_amended [1, 2] [1]
    (by norm_num [List.sorted_cons])
    (by
      intro x hx
      rcases List.mem_cons.mp hx with h | h
      · rw [h]; norm_num
      · rcases List.mem_singleton.mp h with h
        rw [h]; norm_num)
    (by
      intro x hx
      rcases List.mem_singleton.mp hx with h
      rw [h]; norm_num)
    (by norm_num) (by norm_num)
    1 2 1 (by norm_num) (by norm_num) (by norm_num) (by norm_num) (by norm_num)

end EndlessSky
